import Mathlib

/-!
A shallow embedding of `stockbench/agents/fundamental_filter_agent.py` and proofs
about its behaviour.

Modelling conventions:
* Python values are modelled by the inductive type `Val`.  Numbers (Python `int`
  and `float`) are modelled together as rationals, matching Python's numeric
  equality (`1 == 1.0`).  `bool` is kept separate because the code never branches
  on int-vs-bool, but Python equality identifies `True` with `1`, which `pyEq`
  reproduces via the canonicalisation `toCanon`.
* Python dicts are association lists `List (Val × Val)` in insertion order; all
  keys arising in this program are strings (JSON objects, symbol names, config
  keys).  Python's order-insensitive dict equality is not exercised by any value
  comparison in this code (only scalars are compared), so `pyEq` compares dicts
  structurally.
* Exceptions are modelled by `Except PyErr`; operations that cannot raise are
  plain functions.  `try/except` blocks in the source become `match` on the
  `Except` value.
* External collaborators (the LLM client, ISO-timestamp parsing from `datetime`,
  the current system date) are parameters of the embedded functions.
-/

set_option maxHeartbeats 1000000

/-- Model of a Python value as used by the filter agent (JSON-like data). -/
inductive Val where
  | vNone : Val
  | vBool : Bool → Val
  | vNum  : ℚ → Val
  | vStr  : String → Val
  | vList : List Val → Val
  | vDict : List (Val × Val) → Val
  deriving Repr

open Val

/-- Python dictionaries: association lists in insertion order. -/
abbrev PyDict := List (Val × Val)

mutual

/-- Structural boolean equality on `Val`. -/
def valBeq : Val → Val → Bool
  | .vNone, .vNone => true
  | .vBool a, .vBool b => a == b
  | .vNum a, .vNum b => a == b
  | .vStr a, .vStr b => a == b
  | .vList a, .vList b => listValBeq a b
  | .vDict a, .vDict b => pairsValBeq a b
  | _, _ => false

/-- Structural boolean equality on lists of `Val`. -/
def listValBeq : List Val → List Val → Bool
  | [], [] => true
  | x :: xs, y :: ys => valBeq x y && listValBeq xs ys
  | _, _ => false

/-- Structural boolean equality on lists of `Val` pairs. -/
def pairsValBeq : List (Val × Val) → List (Val × Val) → Bool
  | [], [] => true
  | (k, v) :: xs, (l, w) :: ys => valBeq k l && valBeq v w && pairsValBeq xs ys
  | _, _ => false

end

mutual

theorem valBeq_eq : ∀ (a b : Val), valBeq a b = true ↔ a = b
  | .vNone, b => by cases b <;> simp [valBeq]
  | .vBool x, b => by cases b <;> simp [valBeq]
  | .vNum x, b => by cases b <;> simp [valBeq]
  | .vStr x, b => by cases b <;> simp [valBeq]
  | .vList xs, b => by
      cases b <;> simp [valBeq]
      exact listValBeq_eq xs _
  | .vDict xs, b => by
      cases b <;> simp [valBeq]
      exact pairsValBeq_eq xs _
termination_by a _ => sizeOf a

theorem listValBeq_eq : ∀ (xs ys : List Val), listValBeq xs ys = true ↔ xs = ys
  | [], ys => by cases ys <;> simp [listValBeq]
  | x :: xs, [] => by simp [listValBeq]
  | x :: xs, y :: ys => by
      simp [listValBeq, Bool.and_eq_true, valBeq_eq x y, listValBeq_eq xs ys]
termination_by a _ => sizeOf a

theorem pairsValBeq_eq :
    ∀ (xs ys : List (Val × Val)), pairsValBeq xs ys = true ↔ xs = ys
  | [], ys => by cases ys <;> simp [pairsValBeq]
  | x :: xs, [] => by simp [pairsValBeq]
  | (k, v) :: xs, (l, w) :: ys => by
      simp [pairsValBeq, Bool.and_eq_true, valBeq_eq k l, valBeq_eq v w,
        pairsValBeq_eq xs ys, Prod.ext_iff]
termination_by a _ => sizeOf a

end

instance : DecidableEq Val := fun a b => decidable_of_iff _ (valBeq_eq a b)

mutual

/-- Canonical form used to decide Python `==`: booleans collapse to the numbers
`0`/`1` (as in Python, where `True == 1` and `False == 0`). -/
def toCanon : Val → Val
  | .vNone => .vNone
  | .vBool b => .vNum (if b then 1 else 0)
  | .vNum q => .vNum q
  | .vStr s => .vStr s
  | .vList l => .vList (toCanonList l)
  | .vDict d => .vDict (toCanonPairs d)

/-- Canonicalise each element of a list. -/
def toCanonList : List Val → List Val
  | [] => []
  | x :: xs => toCanon x :: toCanonList xs

/-- Canonicalise keys and values of a dict. -/
def toCanonPairs : List (Val × Val) → List (Val × Val)
  | [] => []
  | (k, v) :: xs => (toCanon k, toCanon v) :: toCanonPairs xs

end

/-- Python `==` on the values this program compares. -/
def pyEq (a b : Val) : Bool := decide (toCanon a = toCanon b)

theorem pyEq_refl (a : Val) : pyEq a a = true := by simp [pyEq]

theorem pyEq_symm {a b : Val} (h : pyEq a b = true) : pyEq b a = true := by
  simp only [pyEq, decide_eq_true_eq] at *
  exact h.symm

theorem pyEq_trans {a b c : Val} (h₁ : pyEq a b = true) (h₂ : pyEq b c = true) :
    pyEq a c = true := by
  simp only [pyEq, decide_eq_true_eq] at *
  exact h₁.trans h₂

/-- Python truthiness. -/
def Val.truthy : Val → Bool
  | .vNone => false
  | .vBool b => b
  | .vNum q => decide (q ≠ 0)
  | .vStr s => decide (s ≠ "")
  | .vList l => !l.isEmpty
  | .vDict d => !d.isEmpty

/-- Whether a value is a Python dict (`isinstance(x, dict)`). -/
def Val.isDict : Val → Bool
  | .vDict _ => true
  | _ => false

/-- Whether a value is a Python list (`isinstance(x, list)`). -/
def Val.isList : Val → Bool
  | .vList _ => true
  | _ => false

/-- Whether a value is a Python string (`isinstance(x, str)`). -/
def Val.isStr : Val → Bool
  | .vStr _ => true
  | _ => false

/-- Exceptions that the modelled operations can raise. -/
inductive PyErr where
  | attributeError : PyErr
  | typeError : PyErr
  | keyError : PyErr
  | valueError : String → PyErr
  deriving DecidableEq, Repr

/-- Lookup in a Python dict: the value of the first (unique, in real Python)
key equal to `k` under Python `==`. -/
def dlookup (d : PyDict) (k : Val) : Option Val :=
  (d.find? (fun p => pyEq p.1 k)).map (·.2)

/-- Python `k in d` on a dict. -/
def dcontains (d : PyDict) (k : Val) : Bool :=
  d.any (fun p => pyEq p.1 k)

/-- Python `d[k] = v`: update the entry whose key equals `k` (keeping its
position and original key object), or append a new entry. -/
def dupsert (d : PyDict) (k v : Val) : PyDict :=
  if dcontains d k then d.map (fun p => if pyEq p.1 k then (p.1, v) else p)
  else d ++ [(k, v)]

/-- Python `x in l` on a list. -/
def listContains (l : List Val) (x : Val) : Bool :=
  l.any (fun y => pyEq y x)

/-- Whether the character list `t` occurs inside `s` (substring search). -/
def listHasSub (t s : List Char) : Bool :=
  s.tails.any (fun suf => t.isPrefixOf suf)

/-- Python `t in s` on strings: substring containment. -/
def strHasSub (s t : String) : Bool := listHasSub t.toList s.toList

/-- Python `d.get(k, default)`; raises `AttributeError` when the receiver is
not a dict. -/
def Val.getD (v k dflt : Val) : Except PyErr Val :=
  match v with
  | .vDict d => .ok ((dlookup d k).getD dflt)
  | _ => .error .attributeError

/-- Python `d.get(k)` (default `None`). -/
def Val.getN (v k : Val) : Except PyErr Val := v.getD k .vNone

/-- Python `k in v` (dict key / list member / substring); `TypeError`
otherwise. -/
def pyContains (v k : Val) : Except PyErr Bool :=
  match v with
  | .vDict d => .ok (dcontains d k)
  | .vList l => .ok (listContains l k)
  | .vStr s => match k with
    | .vStr t => .ok (strHasSub s t)
    | _ => .error .typeError
  | _ => .error .typeError

/-- Python subscript `v[k]` as used in this program (dict keys only): a dict
yields the entry or `KeyError`; subscripting a string or list with a non-int
key, or a scalar, raises `TypeError`. -/
def pySubscript (v k : Val) : Except PyErr Val :=
  match v with
  | .vDict d => match dlookup d k with
    | some x => .ok x
    | none => .error .keyError
  | _ => .error .typeError

/-- Python `float(x)` restricted to the values the program feeds it; numeric
strings (accepted by Python) are not modelled, as no claim exercises them. -/
def pyFloat : Val → Except PyErr ℚ
  | .vNum q => .ok q
  | .vBool b => .ok (if b then 1 else 0)
  | _ => .error .typeError

/-- Python `int(x)` restricted likewise; floats truncate toward zero
(`Int.div` is T-division, exactly Python truncation). -/
def pyInt : Val → Except PyErr ℤ
  | .vNum q => .ok (q.num.tdiv q.den)
  | .vBool b => .ok (if b then 1 else 0)
  | _ => .error .typeError

/-- Python `x + y` where `x` is already a float: succeeds on numbers and bools,
`TypeError` otherwise (used for `total_current_position += ...`). -/
def pyAdd (x : ℚ) (v : Val) : Except PyErr ℚ :=
  match v with
  | .vNum q => .ok (x + q)
  | .vBool b => .ok (x + if b then 1 else 0)
  | _ => .error .typeError

/-- Python `v - y` where `y` is a float (used for
`total_assets - total_current_position`). -/
def pySub (v : Val) (y : ℚ) : Except PyErr ℚ :=
  match v with
  | .vNum q => .ok (q - y)
  | .vBool b => .ok ((if b then 1 else 0) - y)
  | _ => .error .typeError

/-- Python `v > 0`: ordered comparison, `TypeError` on non-numbers. -/
def pyGtZero : Val → Except PyErr Bool
  | .vNum q => .ok (decide (0 < q))
  | .vBool b => .ok b
  | _ => .error .typeError

/-- Python `str(x)` (only the cases this program can reach; numbers are
rendered via `toString` on rationals, which differs cosmetically from CPython
float formatting but is never compared by any claim). -/
def pyStrFn : Val → String
  | .vNone => "None"
  | .vBool b => if b then "True" else "False"
  | .vNum q => toString q
  | .vStr s => s
  | .vList _ => "<list>"
  | .vDict _ => "<dict>"

/-- Python `a or b` (value-returning, by truthiness), both sides already
evaluated. -/
def pyOr (a b : Val) : Val := if a.truthy then a else b

/-- Python `a or b` where each side may raise; the right side is only
evaluated when the left is falsy (short-circuit). -/
def pyOrM (a b : Except PyErr Val) : Except PyErr Val := do
  let x ← a
  if x.truthy then pure x else b

/-! ### History Reconstructor (source lines 33-98) -/

/-- Lines 47-56: the history date taken from the `__meta__` entry when it is a
dict with a `date` key; `None` otherwise. -/
def metaDate (pd : PyDict) : Val :=
  if dcontains pd (vStr "__meta__") then
    match dlookup pd (vStr "__meta__") with
    | some (Val.vDict m) =>
      if dcontains m (vStr "date") then (dlookup m (vStr "date")).getD Val.vNone
      else Val.vNone
    | _ => Val.vNone
  else Val.vNone

/-- Lines 58-91: the body of the per-symbol loop of
`_build_history_from_previous_decisions`.  Returns `none` when the entry is
skipped (non-dict decision, lines 59-61), `some record` when a history record
is built, and an error when the body raises (e.g. `current_features[symbol]`
is not a dict, or `current_pos > 0` compares a non-number). -/
def processDecision (history_date : Val) (current_features : Option Val)
    (symbol decision : Val) : Except PyErr (Option Val) :=
  match decision with
  | .vDict d => do
    let action := (dlookup d (vStr "action")).getD (vStr "hold")
    let cash_change := (dlookup d (vStr "cash_change")).getD (vNum 0)
    let target0 := (dlookup d (vStr "target_cash_amount")).getD (vNum 0)
    let target ←
      if pyEq action (vStr "hold") && pyEq target0 (vNum 0) &&
          pyEq cash_change (vNum 0) then
        match current_features with
        | some cf =>
          if cf.truthy then do
            let mem ← pyContains cf symbol
            if mem then do
              let fv ← pySubscript cf symbol
              let ps ← fv.getD (vStr "position_state") (vDict [])
              let current_pos ← ps.getD (vStr "current_position_value") (vNum 0)
              let gt ← pyGtZero current_pos
              pure (if gt then current_pos else target0)
            else pure target0
          else pure target0
        | none => pure target0
      else pure target0
    pure (some (Val.vDict [(vStr "date", history_date), (vStr "action", action),
      (vStr "cash_change", cash_change), (vStr "target_cash_amount", target),
      (vStr "reasons", (dlookup d (vStr "reasons")).getD (vList [])),
      (vStr "confidence", (dlookup d (vStr "confidence")).getD (vNum (1/2)))]))
  | _ => pure none

/-- The `for symbol, decision in decisions.items()` loop, lines 58-91.  The
whole loop sits inside one `try`, so an exception raised while handling one
entry ends the loop; the `except` clause at line 95 swallows it and the
history accumulated so far is returned. -/
def histLoop (history_date : Val) (current_features : Option Val) :
    List (Val × Val) → PyDict → PyDict
  | [], acc => acc
  | (s, d) :: rest, acc =>
    match processDecision history_date current_features s d with
    | .ok none => histLoop history_date current_features rest acc
    | .ok (some r) =>
      histLoop history_date current_features rest (dupsert acc s (Val.vList [r]))
    | .error _ => acc

/-- Lines 33-98: `_build_history_from_previous_decisions`.  Falsy input yields
an empty history; a non-dict (but truthy) input raises at `.items()`, which
the `try/except` swallows, also yielding an empty history.  Never raises. -/
def build_history_from_previous_decisions
    (previous_decisions current_features : Option Val) : PyDict :=
  match previous_decisions with
  | none => []
  | some p =>
    if !p.truthy then []
    else
      match p with
      | .vDict pd =>
        histLoop (metaDate pd) current_features
          (pd.filter (fun q => !(pyEq q.1 (vStr "__meta__")))) []
      | _ => []

/-! ### Request Assembler (source lines 190-251) -/

/-- Lines 198-202: drop the `fundamental_data` section from a feature
snapshot; `.items()` on a non-dict raises `AttributeError`. -/
def stripFund (features : Val) : Except PyErr PyDict :=
  match features with
  | .vDict fs => .ok (fs.filter (fun p => !(pyEq p.1 (vStr "fundamental_data"))))
  | _ => .error .attributeError

/-- Line 195 (and 132, 316, 330, 342, 369): `item.get("symbol", "UNKNOWN")`. -/
def itemSymbol (item : Val) : Except PyErr Val :=
  item.getD (vStr "symbol") (vStr "UNKNOWN")

/-- The symbol list `[item.get("symbol", "UNKNOWN") for item in features_list]`. -/
def symbolsList : List Val → Except PyErr (List Val)
  | [] => .ok []
  | item :: rest =>
    match itemSymbol item with
    | .error e => .error e
    | .ok s =>
      match symbolsList rest with
      | .error e => .error e
      | .ok syms => .ok (s :: syms)

/-- One iteration of the loop at lines 194-211: extract the symbol, strip the
fundamentals section, accumulate the position value, insert into the
`symbols` payload. -/
def symStep (st : PyDict × ℚ) (item : Val) : Except PyErr (PyDict × ℚ) := do
  let symbol ← itemSymbol item
  let features ← item.getD (vStr "features") (vDict [])
  let filtered ← stripFund features
  let posState ← (Val.vDict filtered).getD (vStr "position_state") (vDict [])
  let posV ← posState.getD (vStr "current_position_value") (vNum 0)
  let total ← pyAdd st.2 posV
  pure (dupsert st.1 symbol (Val.vDict [(vStr "features", Val.vDict filtered)]), total)

/-- Lines 191-211: the whole loop, producing the `symbols` payload and
`total_current_position`. -/
def totalPositionAndSymbols (fl : List Val) : Except PyErr (PyDict × ℚ) :=
  fl.foldlM symStep ([], 0)

/-- The position-value contribution of a single item (the fallible chain of
line 205 followed by the `+=` of line 206, starting from 0). -/
def itemPosQ (item : Val) : Except PyErr ℚ := do
  let _ ← itemSymbol item
  let features ← item.getD (vStr "features") (vDict [])
  let filtered ← stripFund features
  let posState ← (Val.vDict filtered).getD (vStr "position_state") (vDict [])
  let posV ← posState.getD (vStr "current_position_value") (vNum 0)
  pyAdd 0 posV

/-! ### Portfolio Snapshot Builder (source lines 213-224) -/

/-- The `ctx["date"]` value: an object with `strftime` (modelled by the
string it formats to), a plain string, or anything else. -/
inductive CtxDate where
  | dateLike (formatted : String)
  | plainStr (s : String)
  | other (v : Val)
  deriving DecidableEq, Repr

/-- The `ctx` argument: an optional dict possibly holding a `portfolio` object
(exposing a numeric `.cash`, per the input contract) and a `date` entry;
`otherKeys` records whether further keys make an otherwise empty ctx truthy. -/
structure PyCtx where
  portfolioCash : Option ℚ
  date : Option CtxDate
  otherKeys : Bool
  deriving DecidableEq, Repr

/-- Python truthiness of the optional `ctx` dict. -/
def ctxTruthy : Option PyCtx → Bool
  | none => false
  | some c => c.portfolioCash.isSome || c.date.isSome || c.otherKeys

/-- Lines 222-224: the static branch — `total_assets` from configuration
(default 100000), `available_cash` derived by subtraction. -/
def staticPortfolio (portfolio_cfg : Val) (totalPos : ℚ) : Except PyErr (Val × Val) := do
  let ta ← portfolio_cfg.getD (vStr "total_cash") (vNum 100000)
  let ac ← pySub ta totalPos
  pure (ta, Val.vNum ac)

/-- Line 214: `portfolio_cfg = cfg.get("portfolio", {}) if cfg else {}`. -/
def portfolioCfgOf (cfg : Option Val) : Except PyErr Val :=
  match cfg with
  | some c => if c.truthy then c.getD (vStr "portfolio") (vDict [])
              else pure (Val.vDict [])
  | none => pure (Val.vDict [])

/-- Lines 213-224: `(total_assets, available_cash)`.  With a live portfolio in
`ctx`, totals are derived from live cash; otherwise from configuration. -/
def portfolioSnapshot (cfg : Option Val) (ctx : Option PyCtx) (totalPos : ℚ) :
    Except PyErr (Val × Val) := do
  let portfolio_cfg ← portfolioCfgOf cfg
  match ctx with
  | some c =>
    if ctxTruthy (some c) then
      match c.portfolioCash with
      | some cash => pure (Val.vNum (cash + totalPos), Val.vNum cash)
      | none => staticPortfolio portfolio_cfg totalPos
    else staticPortfolio portfolio_cfg totalPos
  | none => staticPortfolio portfolio_cfg totalPos

/-! ### Trade-Date Resolver (source lines 253-297) -/

/-- The per-item scan of lines 258-276.  For each item in order: a `date` key
in its `market_data` wins immediately (whatever the value); otherwise a string
`timestamp` that parses wins; a failed parse or absent fields moves on to the
next item.  `parseIso` models `datetime.fromisoformat(ts.replace('Z',
'+00:00')).strftime("%Y-%m-%d")`, returning `none` when Python would raise
(the inner `try/except: pass`). -/
def scanDates (parseIso : String → Option String) : List Val → Except PyErr Val
  | [] => .ok Val.vNone
  | item :: rest =>
    match item.getD (vStr "features") (vDict []) with
    | .error e => .error e
    | .ok features =>
      match features.getD (vStr "market_data") (vDict []) with
      | .error e => .error e
      | .ok market_data =>
        match pyContains market_data (vStr "date") with
        | .error e => .error e
        | .ok true => pySubscript market_data (vStr "date")
        | .ok false =>
          match pyContains market_data (vStr "timestamp") with
          | .error e => .error e
          | .ok false => scanDates parseIso rest
          | .ok true =>
            match pySubscript market_data (vStr "timestamp") with
            | .error e => .error e
            | .ok (.vStr s) =>
              match parseIso s with
              | some ds => .ok (Val.vStr ds)
              | none => scanDates parseIso rest
            | .ok _ => scanDates parseIso rest

/-- Lines 278-285: when the scan produced nothing truthy, consult `ctx["date"]`
(a date-like object is formatted, a string is used as-is, anything else leaves
the date unset). -/
def ctxDateResolve (ctx : Option PyCtx) (td : Val) : Val :=
  if !td.truthy then
    match ctx with
    | some c =>
      if ctxTruthy (some c) then
        match c.date with
        | some (CtxDate.dateLike f) => Val.vStr f
        | some (CtxDate.plainStr s) => Val.vStr s
        | some (CtxDate.other _) => td
        | none => td
      else td
    | none => td
  else td

/-- Lines 253-297: the full trade-date resolution.  Note that methods (1)-(4)
all sit under `if features_list and len(features_list) > 0:`, so an empty
features list leaves the date as `None`; the surrounding `try/except` maps any
extraction exception to the current system date `now`. -/
def resolveTradeDate (fl : List Val) (ctx : Option PyCtx)
    (parseIso : String → Option String) (now : String) : Val :=
  if fl.isEmpty then Val.vNone
  else
    match scanDates parseIso fl with
    | .error _ => Val.vStr now
    | .ok td0 =>
      let td1 := ctxDateResolve ctx td0
      if !td1.truthy then Val.vStr now else td1

/-! ### Serialization helper -/

/-- Floor of a rational (the denominator is positive, so this is `⌊q⌋`),
written with `Int.ediv` so it reduces in the kernel. -/
def ratFloor (q : ℚ) : ℤ := q.num.ediv q.den

/-- Round a rational to two decimals (nearest, half up). -/
def round2 (q : ℚ) : ℚ := ((ratFloor (q * 100 + 1/2) : ℚ)) / 100

mutual

/-- Modelled from the spec: `round_numbers_in_obj` (the external numeric
rounding utility of `stockbench.utils.formatting`, out of scope per the spec)
rounds every numeric value to a fixed precision — two decimals, as called at
line 300 — preserving structure: keys, ordering and non-numeric values are
unchanged. -/
def round_numbers_in_obj : Val → Val
  | .vNum q => .vNum (round2 q)
  | .vList l => .vList (roundObjList l)
  | .vDict d => .vDict (roundObjPairs d)
  | v => v

/-- Round every element of a list. -/
def roundObjList : List Val → List Val
  | [] => []
  | x :: xs => round_numbers_in_obj x :: roundObjList xs

/-- Round the values of a dict, keeping its keys. -/
def roundObjPairs : List (Val × Val) → List (Val × Val)
  | [] => []
  | (k, v) :: xs => (k, round_numbers_in_obj v) :: roundObjPairs xs

end

/-! ### Classification Gateway Adapter (source lines 154-188) -/

/-- The `LLMConfig` built at lines 154-170, with the cache read/write switches
of lines 173-184. -/
structure LLMConfigM where
  provider : String
  base_url : String
  model : String
  temperature : ℚ
  max_tokens : ℤ
  seed : Val
  timeout_sec : ℚ
  max_retries : ℤ
  backoff_factor : ℚ
  cache_enabled : Bool
  cache_ttl_hours : ℤ
  budget_prompt_tokens : ℤ
  budget_completion_tokens : ℤ
  auth_required : Val
  cache_read_enabled : Option Bool
  cache_write_enabled : Option Bool
  deriving DecidableEq, Repr

/-- Lines 154-170: build the `LLMConfig` from the raw llm section and the
filter sub-config.  `float(...)`/`int(...)` on non-numeric values raise. -/
def buildLLMConfigM (llm_cfg_raw filter_cfg : Val) : Except PyErr LLMConfigM := do
  let provider := pyStrFn (← llm_cfg_raw.getD (vStr "provider") (vStr "openai-compatible"))
  let base_url := pyStrFn (← llm_cfg_raw.getD (vStr "base_url") (vStr "https://api.openai.com/v1"))
  let model := pyStrFn (← pyOrM (filter_cfg.getN (vStr "model"))
      (pyOrM (llm_cfg_raw.getN (vStr "fundamental_filter_model"))
        (pyOrM (llm_cfg_raw.getN (vStr "model"))
          (llm_cfg_raw.getD (vStr "analyzer_model") (vStr "gpt-4o-mini")))))
  let temperature ← pyFloat (← filter_cfg.getD (vStr "temperature") (vNum (3/10)))
  let max_tokens ← pyInt (← filter_cfg.getD (vStr "max_tokens") (vNum 4000))
  let seed ← llm_cfg_raw.getN (vStr "seed")
  let timeout_sec ← pyFloat (← llm_cfg_raw.getD (vStr "timeout_sec") (vNum 60))
  let retry1 ← llm_cfg_raw.getD (vStr "retry") (vDict [])
  let max_retries ← pyInt (← retry1.getD (vStr "max_retries") (vNum 3))
  let retry2 ← llm_cfg_raw.getD (vStr "retry") (vDict [])
  let backoff_factor ← pyFloat (← retry2.getD (vStr "backoff_factor") (vNum (1/2)))
  let cache1 ← llm_cfg_raw.getD (vStr "cache") (vDict [])
  let cache_enabled := (← cache1.getD (vStr "enabled") (vBool true)).truthy
  let cache2 ← llm_cfg_raw.getD (vStr "cache") (vDict [])
  let cache_ttl_hours ← pyInt (← cache2.getD (vStr "ttl_hours") (vNum 24))
  let budget1 ← llm_cfg_raw.getD (vStr "budget") (vDict [])
  let budget_prompt_tokens ← pyInt (← budget1.getD (vStr "max_prompt_tokens") (vNum 200000))
  let budget2 ← llm_cfg_raw.getD (vStr "budget") (vDict [])
  let budget_completion_tokens ← pyInt (← budget2.getD (vStr "max_completion_tokens") (vNum 200000))
  let auth_required ← llm_cfg_raw.getN (vStr "auth_required")
  pure ⟨provider, base_url, model, temperature, max_tokens, seed, timeout_sec,
    max_retries, backoff_factor, cache_enabled, cache_ttl_hours,
    budget_prompt_tokens, budget_completion_tokens, auth_required, none, none⟩

/-- Lines 173-184: refine the cache read/write switches from `cache.mode`. -/
def applyCacheMode (c : LLMConfigM) (mode : String) : LLMConfigM :=
  if mode = "off" then
    { c with cache_read_enabled := some false, cache_write_enabled := some false }
  else if mode = "llm_write_only" then
    { c with cache_read_enabled := some false, cache_write_enabled := some true }
  else if mode = "full" then
    { c with cache_read_enabled := some true, cache_write_enabled := some true }
  else
    { c with cache_read_enabled := none, cache_write_enabled := none }

/-! ### Response Validator & Sanitizer (source lines 299-374) and the main
function -/

/-- The result dict returned by `filter_stocks_needing_fundamental`. -/
structure FilterResult where
  stocks_need_fundamental : List Val
  reasoning : PyDict
  deriving DecidableEq, Repr

/-- Line 135: per-symbol reasoning when the LLM is disabled. -/
def noLLMMsg (s : Val) : String :=
  "LLM not enabled, requiring fundamental analysis for " ++ pyStrFn s ++
    " as conservative fallback"

/-- Line 319: reasoning used when the response is falsy or not a dict. -/
def invalidFormatMsg : String :=
  "LLM returned invalid format, requiring fundamental analysis as fallback"

/-- Line 333: reasoning used when `stocks_need_fundamental` is not a list. -/
def invalidListMsg : String :=
  "Invalid filter result format, requiring fundamental analysis as fallback"

/-- Line 372: reasoning used when the LLM call raised `e`. -/
def errorFallbackMsg (e : String) : String :=
  "Error during filtering (" ++ e.take 50 ++
    "), requiring fundamental analysis as fallback"

/-- Line 346: synthesized reasoning for a required symbol. -/
def needMsg : String := "Requires fundamental analysis (no specific reasoning provided)"

/-- Line 348: synthesized reasoning for a not-required symbol. -/
def noNeedMsg : String := "Technical analysis sufficient (no specific reasoning provided)"

/-- A dict comprehension `{symbol: msg(symbol) for symbol in syms}`. -/
def reasoningForAll (syms : List Val) (msg : Val → String) : PyDict :=
  syms.foldl (fun d s => dupsert d s (vStr (msg s))) []

/-- Python `set(...)` modelled as first-occurrence deduplication (iteration
order of a CPython set is unspecified; only membership and per-element
processing matter here). -/
def dedupPy (l : List Val) : List Val :=
  l.foldl (fun acc s => if listContains acc s then acc else acc ++ [s]) []

/-- Line 324: `data.get("stocks_need_fundamental", [])`. -/
def respSNF (d : PyDict) : Val :=
  (dlookup d (vStr "stocks_need_fundamental")).getD (vList [])

/-- Lines 325 and 337-339: `data.get("reasoning", {})`, replaced by `{}` when
not a dict. -/
def respReasoning (d : PyDict) : PyDict :=
  match (dlookup d (vStr "reasoning")).getD (vDict []) with
  | .vDict r => r
  | _ => []

/-- Lines 342-348: give every input symbol a reasoning entry, synthesizing a
default that reflects membership in the service's required-list. -/
def fillReasoning (inputSet : List Val) (snf : List Val) (r0 : PyDict) : PyDict :=
  inputSet.foldl (fun r s =>
    if dcontains r s then r
    else dupsert r s (vStr (if listContains snf s then needMsg else noNeedMsg))) r0

/-- Lines 305-374: everything inside (and after) the `try` around the LLM
call.  `outcome` is the result of `client.generate_json` — `.error e` when it
raised with message `e`.  The only fallible operation here is symbol
extraction, which cannot fail on a call that already built the request. -/
def handleResponse (fl : List Val) (outcome : Except String Val) :
    Except PyErr FilterResult :=
  match outcome with
  | .error e => do
    let syms ← symbolsList fl
    pure ⟨syms, reasoningForAll syms (fun _ => errorFallbackMsg e)⟩
  | .ok data =>
    match data with
    | .vDict dd =>
      if !(Val.vDict dd).truthy then do
        let syms ← symbolsList fl
        pure ⟨syms, reasoningForAll syms (fun _ => invalidFormatMsg)⟩
      else
        match respSNF dd with
        | .vList snf => do
          let syms ← symbolsList fl
          let inputSet := dedupPy syms
          let reasoning := fillReasoning inputSet snf (respReasoning dd)
          pure ⟨snf.filter (fun s => listContains inputSet s), reasoning⟩
        | _ => do
          let syms ← symbolsList fl
          pure ⟨syms, reasoningForAll syms (fun _ => invalidListMsg)⟩
    | _ => do
      let syms ← symbolsList fl
      pure ⟨syms, reasoningForAll syms (fun _ => invalidFormatMsg)⟩

/-- Line 145: the message of the fatal configuration error. -/
def configErrorMsg : String :=
  "No LLM configuration found. Use --llm-profile parameter to specify configuration."

/-- Line 140: `(cfg or {})`. -/
def cfgOr (cfg : Option Val) : Val :=
  match cfg with
  | some c => if c.truthy then c else Val.vDict []
  | none => Val.vDict []

/-- Lines 233-237: rebuild `current_features` (symbol → unfiltered features)
for history repair. -/
def buildCurrentFeatures (fl : List Val) : Except PyErr PyDict :=
  fl.foldlM (fun cf item => do
    let s ← itemSymbol item
    let f ← item.getD (vStr "features") (vDict [])
    pure (dupsert cf s f)) []

/-- Lines 226-240: a truthy `decision_history` is used as-is, otherwise the
history is reconstructed from `previous_decisions`. -/
def historySource (fl : List Val) (previous_decisions decision_history : Option Val) :
    Except PyErr Val := do
  match decision_history with
  | some dh =>
    if dh.truthy then pure dh
    else do
      let cf ← buildCurrentFeatures fl
      pure (Val.vDict (build_history_from_previous_decisions previous_decisions
        (some (Val.vDict cf))))
  | none => do
    let cf ← buildCurrentFeatures fl
    pure (Val.vDict (build_history_from_previous_decisions previous_decisions
      (some (Val.vDict cf))))

/-- Everything the function computes before the LLM call (lines 140-300):
configuration resolution, request assembly, trade-date resolution and the
serialized payload.  An error here propagates to the caller. -/
structure Prepared where
  llm_cfg : LLMConfigM
  cache_mode : String
  prompt_name : String
  filter_input : Val
  trade_date : Val
  user_prompt_obj : Val
  deriving DecidableEq, Repr

/-- The check `isinstance(name, str)` implicit in `os.path.join` at line 20:
`_load_prompt` raises `TypeError` (outside its `try`) when the configured
prompt name is not a string. -/
def promptNameOf (promptV : Val) : Except PyErr String :=
  match promptV with
  | .vStr s => .ok s
  | _ => .error .typeError

/-- Lines 140-300 in source order. -/
def preparedCall (fl : List Val) (cfg : Option Val) (ctx : Option PyCtx)
    (previous_decisions decision_history : Option Val)
    (parseIso : String → Option String) (now : String) : Except PyErr Prepared := do
  let llm_cfg_raw ← (cfgOr cfg).getD (vStr "llm") (vDict [])
  if !llm_cfg_raw.truthy then
    Except.error (PyErr.valueError configErrorMsg)
  else do
    let agents ← (cfgOr cfg).getD (vStr "agents") (vDict [])
    let dual_agent_cfg ← agents.getD (vStr "dual_agent") (vDict [])
    let filter_cfg ← dual_agent_cfg.getD (vStr "fundamental_filter") (vDict [])
    let cacheSec ← (cfgOr cfg).getD (vStr "cache") (vDict [])
    let cache_mode := (pyStrFn (← cacheSec.getD (vStr "mode") (vStr "full"))).toLower
    let llm_cfg0 ← buildLLMConfigM llm_cfg_raw filter_cfg
    let llm_cfg := applyCacheMode llm_cfg0 cache_mode
    let agents2 ← (cfgOr cfg).getD (vStr "agents") (vDict [])
    let dual2 ← agents2.getD (vStr "dual_agent") (vDict [])
    let fcfg2 ← dual2.getD (vStr "fundamental_filter") (vDict [])
    let promptV ← fcfg2.getD (vStr "prompt") (vStr "fundamental_filter_v1.txt")
    let prompt_name ← promptNameOf promptV
    let (symbols, totalPos) ← totalPositionAndSymbols fl
    let (total_assets, available_cash) ← portfolioSnapshot cfg ctx totalPos
    let history ← historySource fl previous_decisions decision_history
    let filter_input := Val.vDict [
      (vStr "portfolio_info", Val.vDict [(vStr "total_assets", total_assets),
        (vStr "available_cash", available_cash),
        (vStr "position_value", Val.vNum totalPos)]),
      (vStr "symbols", Val.vDict symbols),
      (vStr "history", history)]
    let trade_date := resolveTradeDate fl ctx parseIso now
    pure ⟨llm_cfg, cache_mode, prompt_name, filter_input, trade_date,
      round_numbers_in_obj filter_input⟩

/-- Lines 101-374: `filter_stocks_needing_fundamental`.  `llmOutcome` models
the result of the external `client.generate_json` call (`.error e` when it
raises with message `e`); `parseIso` and `now` model the `datetime`
collaborators. -/
def filter_stocks_needing_fundamental (features_list : List Val) (cfg : Option Val)
    (enable_llm : Bool) (ctx : Option PyCtx)
    (previous_decisions decision_history : Option Val)
    (llmOutcome : Except String Val)
    (parseIso : String → Option String) (now : String) : Except PyErr FilterResult := do
  if !enable_llm then do
    let syms ← symbolsList features_list
    pure ⟨syms, reasoningForAll syms noLLMMsg⟩
  else do
    let _p ← preparedCall features_list cfg ctx previous_decisions decision_history
      parseIso now
    handleResponse features_list llmOutcome


/-! ### Auxiliary predicates used by the theorems -/

/-- The per-item position contributions (the chain of line 205 per item). -/
def posList : List Val → Except PyErr (List ℚ)
  | [] => .ok []
  | item :: rest =>
    match itemPosQ item with
    | .error e => .error e
    | .ok q =>
      match posList rest with
      | .error e => .error e
      | .ok qs => .ok (q :: qs)

/-- A dict whose keys are pairwise distinct under Python `==` (true of every
real Python dict, in particular of JSON objects). -/
def PairwiseKeys (d : PyDict) : Prop :=
  d.Pairwise (fun p q => pyEq p.1 q.1 = false)

/-- Values accepted by `float(...)`/`int(...)` in the model. -/
def numLike : Val → Bool
  | .vNum _ => true
  | .vBool _ => true
  | _ => false

/-- A configuration field that converts cleanly given its numeric default. -/
def wfNumField (d : PyDict) (k : String) (dflt : ℚ) : Bool :=
  numLike ((dlookup d (vStr k)).getD (vNum dflt))

/-- The sub-configuration under `k`, when `d.get(k, {})` is a dict. -/
def subDict (d : PyDict) (k : String) : Option PyDict :=
  match (dlookup d (vStr k)).getD (vDict []) with
  | .vDict x => some x
  | _ => none

/-- Well-formedness of the `llm` section: numeric-or-absent scalars and
dict-or-absent sub-sections wherever the code converts them. -/
def wfLLM (l : PyDict) : Bool :=
  wfNumField l "timeout_sec" 60 &&
  (match subDict l "retry" with
   | some r => wfNumField r "max_retries" 3 && wfNumField r "backoff_factor" (1/2)
   | none => false) &&
  (match subDict l "cache" with
   | some cc => wfNumField cc "ttl_hours" 24
   | none => false) &&
  (match subDict l "budget" with
   | some b => wfNumField b "max_prompt_tokens" 200000 &&
       wfNumField b "max_completion_tokens" 200000
   | none => false)

/-- Well-formedness of the `fundamental_filter` sub-config. -/
def wfFilter (f : PyDict) : Bool :=
  wfNumField f "temperature" (3/10) && wfNumField f "max_tokens" 4000 &&
  ((dlookup f (vStr "prompt")).getD (vStr "fundamental_filter_v1.txt")).isStr

/-- Well-formedness of the whole configuration dict: every traversed section
is a dict or absent, every converted scalar is numeric or absent, the prompt
name is a string or absent.  (The `llm` section must additionally be truthy
for the call to proceed at all.) -/
def WFCfg (c0 : PyDict) : Bool :=
  (match subDict c0 "agents" with
   | some a =>
     match subDict a "dual_agent" with
     | some da =>
       match subDict da "fundamental_filter" with
       | some f => wfFilter f
       | none => false
     | none => false
   | none => false) &&
  (subDict c0 "cache").isSome &&
  (match subDict c0 "portfolio" with
   | some pc => wfNumField pc "total_cash" 100000
   | none => false) &&
  (match subDict c0 "llm" with
   | some l => wfLLM l
   | none => false)

/-- Well-formedness of one feature item: a dict whose `features` entry is a
dict (or absent), whose `position_state` section is a dict (or absent) with
a numeric (or absent) `current_position_value`. -/
def WFItem (item : Val) : Bool :=
  match item with
  | .vDict d =>
    match (dlookup d (vStr "features")).getD (vDict []) with
    | .vDict fs =>
      match (dlookup (fs.filter (fun p => !(pyEq p.1 (vStr "fundamental_data"))))
          (vStr "position_state")).getD (vDict []) with
      | .vDict ps => numLike ((dlookup ps (vStr "current_position_value")).getD (vNum 0))
      | _ => false
    | _ => false
  | _ => false

/-- Well-formedness of the whole features list. -/
def WFItems (fl : List Val) : Bool := fl.all WFItem

/-! ### Concrete inputs used by witnesses and counterexamples -/

/-- A well-formed feature item for AAPL, with market data, fundamentals and a
position. -/
def itemAAPL : Val := .vDict [(vStr "symbol", vStr "AAPL"),
  (vStr "features", .vDict [
    (vStr "market_data", .vDict [(vStr "date", vStr "2024-03-15")]),
    (vStr "fundamental_data", .vDict [(vStr "pe", vNum 30)]),
    (vStr "position_state", .vDict [(vStr "current_position_value", vNum 20000)])])]

/-- A well-formed feature item for MSFT with no position and no dates. -/
def itemMSFT : Val := .vDict [(vStr "symbol", vStr "MSFT"),
  (vStr "features", .vDict [(vStr "position_state", .vDict [])])]

/-- An item whose `features` value is a string: `features.items()` raises. -/
def itemBadFeatures : Val := .vDict [(vStr "symbol", vStr "BAD"),
  (vStr "features", vStr "oops")]

/-- A minimal configuration with a non-empty `llm` section. -/
def goodCfg : Option Val := some (.vDict [(vStr "llm", .vDict [(vStr "model", vStr "m")])])

/-- A ctx carrying only a pre-formatted date string. -/
def ctxDateOnly : Option PyCtx := some ⟨none, some (.plainStr "2024-03-15"), false⟩

/-- A ctx carrying only live portfolio cash of 50000. -/
def ctxCash50k : Option PyCtx := some ⟨some 50000, none, false⟩

/-- An ISO parser that always fails (no timestamps are exercised). -/
def parseNone : String → Option String := fun _ => none

/-- Previous decisions where processing `"A"` raises (its current features are
a number, so `.get` on them raises `AttributeError`) while `"B"` is fine. -/
def prevAB : Val := .vDict [
  (vStr "A", .vDict [(vStr "action", vStr "hold")]),
  (vStr "B", .vDict [(vStr "action", vStr "buy")])]

/-- Current features making symbol `"A"`'s history processing raise. -/
def cfAB : Val := .vDict [(vStr "A", vNum 5), (vStr "B", .vDict [])]

/-! ### Basic lemmas about the Python-semantics toolkit -/

theorem split_bind_ok {ξ A B : Type} {u : Except ξ A} {k : A → Except ξ B} {r : B}
    (h : (u >>= k) = .ok r) : ∃ a, u = .ok a ∧ k a = .ok r := by
  cases hu : u with
  | ok a =>
    refine ⟨a, rfl, ?_⟩
    rw [hu] at h
    exact h
  | error e =>
    rw [hu] at h
    cases h

theorem dlookup_mem {d : PyDict} {k v : Val} (h : dlookup d k = some v) :
    ∃ k', (k', v) ∈ d ∧ pyEq k' k = true := by
  unfold dlookup at h
  obtain ⟨p, hp, rfl⟩ : ∃ p, d.find? (fun p => pyEq p.1 k) = some p ∧ p.2 = v := by
    cases hfind : d.find? (fun p => pyEq p.1 k) with
    | none => simp [hfind] at h
    | some p => simp [hfind] at h; exact ⟨p, rfl, h⟩
  exact ⟨p.1, by simpa using List.mem_of_find?_eq_some hp,
    by simpa using List.find?_some hp⟩

theorem dcontains_dlookup {d : PyDict} {k : Val} (h : dcontains d k = true) :
    ∃ v, dlookup d k = some v := by
  unfold dcontains at h
  unfold dlookup
  obtain ⟨p, hp, hpk⟩ := List.any_eq_true.mp h
  have : (d.find? (fun p => pyEq p.1 k)).isSome := by
    rw [List.find?_isSome]
    exact ⟨p, hp, hpk⟩
  obtain ⟨p', hp'⟩ := Option.isSome_iff_exists.mp this
  exact ⟨p'.2, by simp [hp']⟩

theorem dlookup_dcontains {d : PyDict} {k v : Val} (h : dlookup d k = some v) :
    dcontains d k = true := by
  obtain ⟨k', hmem, hk⟩ := dlookup_mem h
  exact List.any_eq_true.mpr ⟨(k', v), hmem, hk⟩

theorem list_any_congr {α : Type} {p q : α → Bool} {l : List α}
    (h : ∀ a ∈ l, p a = q a) : l.any p = l.any q := by
  induction l with
  | nil => rfl
  | cons x xs ih =>
    simp only [List.any_cons, h x (by simp),
      ih (fun a ha => h a (by simp [ha]))]

theorem pyEq_congr_right {a b p : Val} (h : pyEq a b = true) :
    pyEq p a = pyEq p b := by
  rcases hc : pyEq p b with _ | _
  · rcases hc' : pyEq p a with _ | _
    · rfl
    · exact absurd (pyEq_trans hc' h) (by simp [hc])
  · exact pyEq_trans hc (pyEq_symm h)

theorem dcontains_congr {d : PyDict} {a b : Val} (h : pyEq a b = true) :
    dcontains d a = dcontains d b := by
  unfold dcontains
  exact list_any_congr (fun p _ => pyEq_congr_right h)

theorem listContains_congr {l : List Val} {a b : Val} (h : pyEq a b = true) :
    listContains l a = listContains l b := by
  unfold listContains
  exact list_any_congr (fun y _ => pyEq_congr_right h)

theorem listContains_of_mem {l : List Val} {x : Val} (h : x ∈ l) :
    listContains l x = true :=
  List.any_eq_true.mpr ⟨x, h, pyEq_refl x⟩

theorem dupsert_keys_eq (d : PyDict) (k v : Val) (h : dcontains d k = true) :
    (dupsert d k v).map Prod.fst = d.map Prod.fst := by
  unfold dupsert
  rw [if_pos h, List.map_map]
  refine List.map_congr_left (fun p _ => ?_)
  by_cases hp : pyEq p.1 k = true <;> simp [hp]

theorem dcontains_dupsert_self (d : PyDict) (k v : Val) :
    dcontains (dupsert d k v) k = true := by
  unfold dupsert
  by_cases h : dcontains d k = true
  · rw [if_pos h]
    unfold dcontains at h ⊢
    rw [List.any_map]
    refine (list_any_congr (fun p _ => ?_)).trans h
    by_cases hp : pyEq p.1 k = true <;> simp [Function.comp, hp]
  · rw [if_neg h]
    unfold dcontains
    simp [pyEq_refl]

theorem dcontains_dupsert_mono {d : PyDict} {s : Val} (k v : Val)
    (h : dcontains d s = true) : dcontains (dupsert d k v) s = true := by
  unfold dupsert
  by_cases hc : dcontains d k = true
  · rw [if_pos hc]
    unfold dcontains at h ⊢
    rw [List.any_map]
    obtain ⟨p, hp, hps⟩ := List.any_eq_true.mp h
    refine List.any_eq_true.mpr ⟨p, hp, ?_⟩
    by_cases hpk : pyEq p.1 k = true <;> simp [Function.comp, hpk, hps]
  · rw [if_neg hc]
    unfold dcontains at h ⊢
    simp [List.any_append, h]

theorem str_append_ne_empty_left (a b : String) (ha : a ≠ "") : a ++ b ≠ "" := by
  intro h
  apply ha
  have := congrArg String.data h
  simp at this
  rcases a with ⟨la⟩
  rcases b with ⟨lb⟩
  simp_all

theorem noLLMMsg_ne_empty (s : Val) : noLLMMsg s ≠ "" := by
  unfold noLLMMsg
  exact str_append_ne_empty_left _ _
    (str_append_ne_empty_left _ _ (by decide))

theorem errorFallbackMsg_ne_empty (e : String) : errorFallbackMsg e ≠ "" := by
  unfold errorFallbackMsg
  exact str_append_ne_empty_left _ _
    (str_append_ne_empty_left _ _ (by decide))

theorem valsSat_dupsert (P : Val → Prop) {d : PyDict} {k v : Val}
    (hd : ∀ p ∈ d, P p.2) (hv : P v) : ∀ p ∈ dupsert d k v, P p.2 := by
  intro p hp
  unfold dupsert at hp
  by_cases hc : dcontains d k = true
  · rw [if_pos hc] at hp
    obtain ⟨q, hq, hqp⟩ := List.mem_map.mp hp
    by_cases hqk : pyEq q.1 k = true
    · rw [if_pos hqk] at hqp
      rw [← hqp]
      exact hv
    · rw [if_neg hqk] at hqp
      rw [← hqp]
      exact hd q hq
  · rw [if_neg hc] at hp
    rcases List.mem_append.mp hp with h | h
    · exact hd p h
    · simp at h
      rw [h]
      exact hv

theorem valsSat_foldl_dupsert (P : Val → Prop) (f : Val → Val) (hf : ∀ t, P (f t)) :
    ∀ (syms : List Val) (acc : PyDict), (∀ p ∈ acc, P p.2) →
      ∀ p ∈ syms.foldl (fun d t => dupsert d t (f t)) acc, P p.2 := by
  intro syms
  induction syms with
  | nil => intro acc hacc; simpa using hacc
  | cons t rest ih =>
    intro acc hacc
    simp only [List.foldl_cons]
    exact ih (dupsert acc t (f t)) (valsSat_dupsert P hacc (hf t))

theorem dcontains_foldl_dupsert (f : Val → Val) :
    ∀ (syms : List Val) (acc : PyDict) (s : Val),
      (s ∈ syms ∨ dcontains acc s = true) →
      dcontains (syms.foldl (fun d t => dupsert d t (f t)) acc) s = true := by
  intro syms
  induction syms with
  | nil =>
    intro acc s h
    simpa using h.resolve_left (by simp)
  | cons t rest ih =>
    intro acc s h
    simp only [List.foldl_cons]
    rcases h with h | h
    · rcases List.mem_cons.mp h with rfl | h
      · exact ih _ _ (Or.inr (dcontains_dupsert_self acc s (f s)))
      · exact ih _ _ (Or.inl h)
    · exact ih _ _ (Or.inr (dcontains_dupsert_mono _ _ h))

theorem lookup_reasoningForAll {syms : List Val} {s : Val} (msg : Val → String)
    (h : s ∈ syms) :
    ∃ t, dlookup (reasoningForAll syms msg) s = some (vStr (msg t)) := by
  have hc : dcontains (reasoningForAll syms msg) s = true := by
    unfold reasoningForAll
    exact dcontains_foldl_dupsert _ syms [] s (Or.inl h)
  obtain ⟨v, hv⟩ := dcontains_dlookup hc
  obtain ⟨k', hmem, _⟩ := dlookup_mem hv
  have hsat : ∀ p ∈ reasoningForAll syms msg, ∃ t, p.2 = vStr (msg t) := by
    unfold reasoningForAll
    exact valsSat_foldl_dupsert (fun v => ∃ t, v = vStr (msg t))
      (fun t => vStr (msg t)) (fun t => ⟨t, rfl⟩) syms [] (by simp)
  obtain ⟨t, ht⟩ := hsat (k', v) hmem
  have ht' : v = vStr (msg t) := ht
  exact ⟨t, by rw [hv, ht']⟩

@[simp] theorem ok_bind {ε α β : Type} (a : α) (f : α → Except ε β) :
    (Except.ok a >>= f) = f a := rfl

@[simp] theorem error_bind {ε α β : Type} (e : ε) (f : α → Except ε β) :
    ((Except.error e : Except ε α) >>= f) = .error e := rfl

@[simp] theorem pure_ok {ε α : Type} (a : α) :
    (pure a : Except ε α) = .ok a := rfl

theorem symStep_symbol_ok {st st2 : PyDict × ℚ} {item : Val}
    (h : symStep st item = .ok st2) : ∃ s, itemSymbol item = .ok s := by
  unfold symStep at h
  obtain ⟨s, hs, _⟩ := split_bind_ok h
  exact ⟨s, hs⟩

theorem symbolsList_ok_of_fold :
    ∀ (fl : List Val) (st st' : PyDict × ℚ),
      fl.foldlM symStep st = .ok st' → ∃ syms, symbolsList fl = .ok syms := by
  intro fl
  induction fl with
  | nil => intro st st' _; exact ⟨[], rfl⟩
  | cons x xs ih =>
    intro st st' h
    rw [List.foldlM_cons] at h
    obtain ⟨st1, h1, h2⟩ := split_bind_ok h
    obtain ⟨s, hs⟩ := symStep_symbol_ok h1
    obtain ⟨syms, hsyms⟩ := ih st1 st' h2
    refine ⟨s :: syms, ?_⟩
    unfold symbolsList
    rw [hs, hsyms]

theorem symbolsList_ok_of_prepared {fl : List Val} {cfg : Option Val}
    {ctx : Option PyCtx} {prev dh : Option Val} {parseIso : String → Option String}
    {now : String} {p : Prepared}
    (h : preparedCall fl cfg ctx prev dh parseIso now = .ok p) :
    ∃ syms, symbolsList fl = .ok syms := by
  unfold preparedCall at h
  obtain ⟨lraw, h1, h⟩ := split_bind_ok h
  rcases ht : lraw.truthy with _ | _
  · rw [ht] at h; simp at h
  · rw [ht] at h
    simp only [Bool.not_true, Bool.false_eq_true, if_false] at h
    obtain ⟨agents, _, h⟩ := split_bind_ok h
    obtain ⟨dual, _, h⟩ := split_bind_ok h
    obtain ⟨fcfg, _, h⟩ := split_bind_ok h
    obtain ⟨cacheSec, _, h⟩ := split_bind_ok h
    obtain ⟨modeV, _, h⟩ := split_bind_ok h
    obtain ⟨llm0, _, h⟩ := split_bind_ok h
    obtain ⟨agents2, _, h⟩ := split_bind_ok h
    obtain ⟨dual2, _, h⟩ := split_bind_ok h
    obtain ⟨fcfg2, _, h⟩ := split_bind_ok h
    obtain ⟨promptV, _, h⟩ := split_bind_ok h
    obtain ⟨pname, _, h⟩ := split_bind_ok h
    obtain ⟨st, hst, _⟩ := split_bind_ok h
    exact symbolsList_ok_of_fold fl _ _ hst

/-! ### Claim C3 -/

/-- C3: for every `features_list`, when `enable_llm` is `False`,
`filter_stocks_needing_fundamental` performs no classification call and
returns `stocks_need_fundamental` equal to exactly the list of input symbols
in input order, together with a non-empty reasoning string for every symbol.
(The hypothesis says only that extracting the symbols succeeds, i.e. the
items are dicts; the result is independent of all classification inputs.) -/
theorem c3_no_llm_requires_all (fl syms : List Val)
    (cfg : Option Val) (ctx : Option PyCtx) (prev dh : Option Val)
    (outcome : Except String Val) (parseIso : String → Option String) (now : String)
    (h : symbolsList fl = .ok syms) :
    ∃ r, filter_stocks_needing_fundamental fl cfg false ctx prev dh outcome
        parseIso now = .ok r ∧
      r.stocks_need_fundamental = syms ∧
      ∀ s ∈ syms, ∃ m, dlookup r.reasoning s = some (vStr m) ∧ m ≠ "" := by
  refine ⟨⟨syms, reasoningForAll syms noLLMMsg⟩, ?_, rfl, ?_⟩
  · unfold filter_stocks_needing_fundamental
    simp [h]
  · intro s hs
    obtain ⟨t, ht⟩ := lookup_reasoningForAll noLLMMsg hs
    exact ⟨noLLMMsg t, ht, noLLMMsg_ne_empty t⟩

/-- Witness for C3: a concrete two-symbol call with the LLM disabled. -/
theorem c3_no_llm_requires_all_witness :
    ∃ r, filter_stocks_needing_fundamental [itemAAPL, itemMSFT] none false none
        none none (.ok .vNone) parseNone "2026-10-12" = .ok r ∧
      r.stocks_need_fundamental = [vStr "AAPL", vStr "MSFT"] ∧
      ∀ s ∈ [vStr "AAPL", vStr "MSFT"],
        ∃ m, dlookup r.reasoning s = some (vStr m) ∧ m ≠ "" :=
  c3_no_llm_requires_all [itemAAPL, itemMSFT] [vStr "AAPL", vStr "MSFT"]
    none none none none (.ok .vNone) parseNone "2026-10-12" (by rfl)

/-! ### Claim C1 -/

/-- C1: on every call that reaches the classification service (the request
was prepared), if the service raises, or returns a falsy or non-dict value,
or returns a dict whose `stocks_need_fundamental` field is not a list, then
the function returns `stocks_need_fundamental` equal to the full input symbol
list in input order, and a non-empty failure-describing reasoning string for
every input symbol — never fewer required symbols than the input. -/
theorem c1_failure_fallback_all (fl syms : List Val) (cfg : Option Val)
    (ctx : Option PyCtx) (prev dh : Option Val) (outcome : Except String Val)
    (parseIso : String → Option String) (now : String)
    (hp : ∃ p, preparedCall fl cfg ctx prev dh parseIso now = .ok p)
    (hsyms : symbolsList fl = .ok syms)
    (hfail : (∃ e, outcome = .error e) ∨
      (∃ d, outcome = .ok d ∧ (d.truthy = false ∨ d.isDict = false)) ∨
      (∃ dd, outcome = .ok (Val.vDict dd) ∧ (Val.vDict dd).truthy = true ∧
        (respSNF dd).isList = false)) :
    ∃ r, filter_stocks_needing_fundamental fl cfg true ctx prev dh outcome
        parseIso now = .ok r ∧
      r.stocks_need_fundamental = syms ∧
      ∀ s ∈ syms, ∃ m, dlookup r.reasoning s = some (vStr m) ∧ m ≠ "" := by
  obtain ⟨p, hp⟩ := hp
  have hmain : filter_stocks_needing_fundamental fl cfg true ctx prev dh outcome
      parseIso now = handleResponse fl outcome := by
    unfold filter_stocks_needing_fundamental
    simp [hp]
  rcases hfail with ⟨e, rfl⟩ | ⟨d, rfl, hd⟩ | ⟨dd, rfl, htr, hnl⟩
  · refine ⟨⟨syms, reasoningForAll syms (fun _ => errorFallbackMsg e)⟩, ?_, rfl, ?_⟩
    · rw [hmain]; unfold handleResponse; rw [hsyms]; rfl
    · intro s hs
      obtain ⟨t, ht⟩ := lookup_reasoningForAll _ hs
      exact ⟨errorFallbackMsg e, ht, errorFallbackMsg_ne_empty e⟩
  · refine ⟨⟨syms, reasoningForAll syms (fun _ => invalidFormatMsg)⟩, ?_, rfl, ?_⟩
    · rw [hmain]
      cases d with
      | vDict dd =>
        have hdt : (Val.vDict dd).truthy = false := by
          rcases hd with h | h
          · exact h
          · simp [Val.isDict] at h
        unfold handleResponse
        simp [hdt, hsyms]
      | vNone => unfold handleResponse; simp [hsyms]
      | vBool b => unfold handleResponse; simp [hsyms]
      | vNum q => unfold handleResponse; simp [hsyms]
      | vStr s => unfold handleResponse; simp [hsyms]
      | vList l => unfold handleResponse; simp [hsyms]
    · intro s hs
      obtain ⟨t, ht⟩ := lookup_reasoningForAll _ hs
      exact ⟨invalidFormatMsg, ht, by decide⟩
  · refine ⟨⟨syms, reasoningForAll syms (fun _ => invalidListMsg)⟩, ?_, rfl, ?_⟩
    · rw [hmain]
      unfold handleResponse
      cases hsnf : respSNF dd with
      | vList l => rw [hsnf] at hnl; simp [Val.isList] at hnl
      | vNone => simp [htr, hsnf, hsyms]
      | vBool b => simp [htr, hsnf, hsyms]
      | vNum q => simp [htr, hsnf, hsyms]
      | vStr s => simp [htr, hsnf, hsyms]
      | vDict d2 => simp [htr, hsnf, hsyms]
    · intro s hs
      obtain ⟨t, ht⟩ := lookup_reasoningForAll _ hs
      exact ⟨invalidListMsg, ht, by decide⟩

/-- Witness for C1: a prepared two-symbol call whose service call raises
`"boom"`. -/
theorem c1_failure_fallback_all_witness :
    ∃ r, filter_stocks_needing_fundamental [itemAAPL, itemMSFT] goodCfg true none
        none none (.error "boom") parseNone "2026-10-12" = .ok r ∧
      r.stocks_need_fundamental = [vStr "AAPL", vStr "MSFT"] ∧
      ∀ s ∈ [vStr "AAPL", vStr "MSFT"],
        ∃ m, dlookup r.reasoning s = some (vStr m) ∧ m ≠ "" :=
  c1_failure_fallback_all [itemAAPL, itemMSFT] [vStr "AAPL", vStr "MSFT"] goodCfg
    none none none (.error "boom") parseNone "2026-10-12" ⟨_, rfl⟩ (by rfl)
    (Or.inl ⟨"boom", rfl⟩)

/-! ### Claim C5 -/

/-- C5: in the history reconstruction, a prior decision read as
`action="hold"`, `target_cash_amount=0`, `cash_change=0` has its target
repaired to the current position value `pval` when the current features map
the symbol to a positive `position_state.current_position_value`; and the
recorded target is preserved unchanged whenever `cash_change` is nonzero, or
the current position value is not positive, or the symbol is absent from the
current features. -/
theorem c5_hold_repair_target (history_date : Val) :
    (∀ (d cfd fv ps : PyDict) (s : Val) (pval : ℚ),
      (dlookup d (vStr "action")).getD (vStr "hold") = vStr "hold" →
      (dlookup d (vStr "target_cash_amount")).getD (vNum 0) = vNum 0 →
      (dlookup d (vStr "cash_change")).getD (vNum 0) = vNum 0 →
      dlookup cfd s = some (Val.vDict fv) →
      (dlookup fv (vStr "position_state")).getD (vDict []) = Val.vDict ps →
      (dlookup ps (vStr "current_position_value")).getD (vNum 0) = vNum pval →
      0 < pval →
      processDecision history_date (some (Val.vDict cfd)) s (Val.vDict d) =
        .ok (some (Val.vDict [(vStr "date", history_date),
          (vStr "action", vStr "hold"),
          (vStr "cash_change", vNum 0),
          (vStr "target_cash_amount", vNum pval),
          (vStr "reasons", (dlookup d (vStr "reasons")).getD (vList [])),
          (vStr "confidence", (dlookup d (vStr "confidence")).getD (vNum (1/2)))]))) ∧
    (∀ (d : PyDict) (cf : Option Val) (s : Val),
      pyEq ((dlookup d (vStr "cash_change")).getD (vNum 0)) (vNum 0) = false →
      processDecision history_date cf s (Val.vDict d) =
        .ok (some (Val.vDict [(vStr "date", history_date),
          (vStr "action", (dlookup d (vStr "action")).getD (vStr "hold")),
          (vStr "cash_change", (dlookup d (vStr "cash_change")).getD (vNum 0)),
          (vStr "target_cash_amount",
            (dlookup d (vStr "target_cash_amount")).getD (vNum 0)),
          (vStr "reasons", (dlookup d (vStr "reasons")).getD (vList [])),
          (vStr "confidence", (dlookup d (vStr "confidence")).getD (vNum (1/2)))]))) ∧
    (∀ (d cfd fv ps : PyDict) (s : Val) (pval : ℚ),
      (dlookup d (vStr "action")).getD (vStr "hold") = vStr "hold" →
      (dlookup d (vStr "target_cash_amount")).getD (vNum 0) = vNum 0 →
      (dlookup d (vStr "cash_change")).getD (vNum 0) = vNum 0 →
      dlookup cfd s = some (Val.vDict fv) →
      (dlookup fv (vStr "position_state")).getD (vDict []) = Val.vDict ps →
      (dlookup ps (vStr "current_position_value")).getD (vNum 0) = vNum pval →
      ¬ (0 < pval) →
      processDecision history_date (some (Val.vDict cfd)) s (Val.vDict d) =
        .ok (some (Val.vDict [(vStr "date", history_date),
          (vStr "action", vStr "hold"),
          (vStr "cash_change", vNum 0),
          (vStr "target_cash_amount", vNum 0),
          (vStr "reasons", (dlookup d (vStr "reasons")).getD (vList [])),
          (vStr "confidence", (dlookup d (vStr "confidence")).getD (vNum (1/2)))]))) ∧
    (∀ (d cfd : PyDict) (s : Val),
      (dlookup d (vStr "action")).getD (vStr "hold") = vStr "hold" →
      (dlookup d (vStr "target_cash_amount")).getD (vNum 0) = vNum 0 →
      (dlookup d (vStr "cash_change")).getD (vNum 0) = vNum 0 →
      dcontains cfd s = false →
      processDecision history_date (some (Val.vDict cfd)) s (Val.vDict d) =
        .ok (some (Val.vDict [(vStr "date", history_date),
          (vStr "action", vStr "hold"),
          (vStr "cash_change", vNum 0),
          (vStr "target_cash_amount", vNum 0),
          (vStr "reasons", (dlookup d (vStr "reasons")).getD (vList [])),
          (vStr "confidence", (dlookup d (vStr "confidence")).getD (vNum (1/2)))]))) := by
  refine ⟨?_, ?_, ?_, ?_⟩
  · intro d cfd fv ps s pval h1 h2 h3 hcf hps hpv hpos
    have htr : (Val.vDict cfd).truthy = true := by
      cases cfd with
      | nil => simp [dlookup] at hcf
      | cons a l => simp [Val.truthy]
    simp only [processDecision]
    rw [h1, h2, h3]
    simp [pyEq_refl, htr, pyContains, dlookup_dcontains hcf, pySubscript, hcf,
      Val.getD, hps, hpv, pyGtZero, hpos]
  · intro d cf s hB
    unfold processDecision
    simp only [hB, Bool.and_false]
    simp
  · intro d cfd fv ps s pval h1 h2 h3 hcf hps hpv hpos
    have htr : (Val.vDict cfd).truthy = true := by
      cases cfd with
      | nil => simp [dlookup] at hcf
      | cons a l => simp [Val.truthy]
    simp only [processDecision]
    rw [h1, h2, h3]
    simp [pyEq_refl, htr, pyContains, dlookup_dcontains hcf, pySubscript, hcf,
      Val.getD, hps, hpv, pyGtZero, hpos]
  · intro d cfd s h1 h2 h3 hnc
    simp only [processDecision]
    rw [h1, h2, h3]
    simp [pyEq_refl, pyContains, hnc, h2]

/-- Witness for C5: the spec's 1500-repair scenario, plus preservation at a
nonzero cash change, a zero position and an absent symbol. -/
theorem c5_hold_repair_target_witness :
    processDecision (vStr "2024-03-14")
      (some (Val.vDict [(vStr "AAPL",
        Val.vDict [(vStr "position_state",
          Val.vDict [(vStr "current_position_value", vNum 1500)])])]))
      (vStr "AAPL")
      (Val.vDict [(vStr "action", vStr "hold"), (vStr "cash_change", vNum 0),
        (vStr "target_cash_amount", vNum 0)]) =
      .ok (some (Val.vDict [(vStr "date", vStr "2024-03-14"),
        (vStr "action", vStr "hold"), (vStr "cash_change", vNum 0),
        (vStr "target_cash_amount", vNum 1500), (vStr "reasons", vList []),
        (vStr "confidence", vNum (1/2))])) ∧
    processDecision (vStr "2024-03-14") none (vStr "AAPL")
      (Val.vDict [(vStr "action", vStr "hold"), (vStr "cash_change", vNum 7),
        (vStr "target_cash_amount", vNum 0)]) =
      .ok (some (Val.vDict [(vStr "date", vStr "2024-03-14"),
        (vStr "action", vStr "hold"), (vStr "cash_change", vNum 7),
        (vStr "target_cash_amount", vNum 0), (vStr "reasons", vList []),
        (vStr "confidence", vNum (1/2))])) := by
  constructor
  · exact (c5_hold_repair_target (vStr "2024-03-14")).1
      [(vStr "action", vStr "hold"), (vStr "cash_change", vNum 0),
        (vStr "target_cash_amount", vNum 0)]
      [(vStr "AAPL", Val.vDict [(vStr "position_state",
        Val.vDict [(vStr "current_position_value", vNum 1500)])])]
      [(vStr "position_state", Val.vDict [(vStr "current_position_value", vNum 1500)])]
      [(vStr "current_position_value", vNum 1500)]
      (vStr "AAPL") 1500 (by rfl) (by rfl) (by rfl) (by rfl) (by rfl) (by rfl)
      (by norm_num)
  · exact (c5_hold_repair_target (vStr "2024-03-14")).2.1
      [(vStr "action", vStr "hold"), (vStr "cash_change", vNum 7),
        (vStr "target_cash_amount", vNum 0)]
      none (vStr "AAPL") (by rfl)

/-! ### Claim C4 -/

/-- Counterexample to C4 as stated: at this input, symbol `"B"`'s entry is
well formed (processing it alone succeeds and yields a record), but the
processing error raised on symbol `"A"` ends the whole loop, so the
reconstruction returns an empty history — no record is produced for the
remaining well-formed symbol, contradicting "history records are still
produced for every remaining well-formed symbol". -/
theorem c4_counterexample :
    (∃ r, processDecision Val.vNone (some cfAB) (vStr "B")
        (Val.vDict [(vStr "action", vStr "buy")]) = .ok (some r)) ∧
    (∃ e, processDecision Val.vNone (some cfAB) (vStr "A")
        (Val.vDict [(vStr "action", vStr "hold")]) = .error e) ∧
    build_history_from_previous_decisions (some prevAB) (some cfAB) = [] :=
  ⟨⟨_, rfl⟩, ⟨_, rfl⟩, rfl⟩

/-- C4 (amended): `_build_history_from_previous_decisions` never raises —
a missing, falsy or non-mapping input yields an empty mapping; a non-mapping
decision entry is skipped with the remaining symbols still processed; but any
other processing error raised on one symbol's entry ends the loop, returning
only the records built before it (the remaining symbols are not processed). -/
theorem c4_history_error_isolation :
    (∀ cf : Option Val, build_history_from_previous_decisions none cf = []) ∧
    (∀ (p : Val) (cf : Option Val), p.truthy = false →
      build_history_from_previous_decisions (some p) cf = []) ∧
    (∀ (p : Val) (cf : Option Val), p.isDict = false →
      build_history_from_previous_decisions (some p) cf = []) ∧
    (∀ (hd : Val) (cf : Option Val) (s d : Val) (rest : List (Val × Val))
        (acc : PyDict), d.isDict = false →
      histLoop hd cf ((s, d) :: rest) acc = histLoop hd cf rest acc) ∧
    (∀ (hd : Val) (cf : Option Val) (s d : Val) (rest : List (Val × Val))
        (acc : PyDict) (e : PyErr), processDecision hd cf s d = .error e →
      histLoop hd cf ((s, d) :: rest) acc = acc) := by
  refine ⟨?_, ?_, ?_, ?_, ?_⟩
  · intro cf; rfl
  · intro p cf h
    unfold build_history_from_previous_decisions
    simp [h]
  · intro p cf h
    cases p with
    | vDict d => simp [Val.isDict] at h
    | vNone => rfl
    | vBool b => simp [build_history_from_previous_decisions]
    | vNum q => simp [build_history_from_previous_decisions]
    | vStr t => simp [build_history_from_previous_decisions]
    | vList l => simp [build_history_from_previous_decisions]
  · intro hd cf s d rest acc h
    have hp : processDecision hd cf s d = .ok none := by
      cases d with
      | vDict dd => simp [Val.isDict] at h
      | vNone => rfl
      | vBool b => rfl
      | vNum q => rfl
      | vStr t => rfl
      | vList l => rfl
    simp [histLoop, hp]
  · intro hd cf s d rest acc e h
    simp [histLoop, h]

/-- Witness for C4 (amended) at concrete inputs: a truthy non-mapping input
yields an empty history, a non-mapping entry is skipped with the rest still
processed, and an erroring entry ends the loop. -/
theorem c4_history_error_isolation_witness :
    build_history_from_previous_decisions (some (Val.vStr "zap")) (some cfAB) = [] ∧
    histLoop Val.vNone (some cfAB)
        [(vStr "X", Val.vNum 3), (vStr "B", Val.vDict [(vStr "action", vStr "buy")])] [] =
      histLoop Val.vNone (some cfAB)
        [(vStr "B", Val.vDict [(vStr "action", vStr "buy")])] [] ∧
    histLoop Val.vNone (some cfAB)
        [(vStr "A", Val.vDict [(vStr "action", vStr "hold")])] [] = [] :=
  ⟨c4_history_error_isolation.2.2.1 (Val.vStr "zap") (some cfAB) (by rfl),
   c4_history_error_isolation.2.2.2.1 Val.vNone (some cfAB) (vStr "X")
     (Val.vNum 3) [(vStr "B", Val.vDict [(vStr "action", vStr "buy")])] []
     (by rfl),
   c4_history_error_isolation.2.2.2.2 Val.vNone (some cfAB) (vStr "A")
     (Val.vDict [(vStr "action", vStr "hold")])
     [] [] PyErr.attributeError (by rfl)⟩

/-! ### Claim C7 -/

/-- Counterexample to C7 as stated: with an empty features list and a ctx
date of `"2024-03-15"`, the trade date passed to the classification call is
`None` — not the ctx date that source (3) should have yielded, and not the
current system date either, because all four sources sit under the
`if features_list` guard. -/
theorem c7_counterexample :
    (preparedCall [] goodCfg ctxDateOnly none none parseNone "2026-01-01").map
        Prepared.trade_date = .ok Val.vNone ∧
    resolveTradeDate [] ctxDateOnly parseNone "2026-01-01" = Val.vNone ∧
    Val.vNone ≠ Val.vStr "2024-03-15" ∧ Val.vNone ≠ Val.vStr "2026-01-01" :=
  ⟨rfl, rfl, by decide, by decide⟩

/-- C7 (amended): the trade-date resolution, whose four sources all sit under
a non-empty-features-list guard.  (i) An empty list resolves to `None`
without consulting ctx or the system date.  Otherwise items are scanned in
order — (vii) a `date` field in an item's market data wins immediately
(whatever its value), (viii) else that item's parseable string timestamp
wins, (ix) else the scan moves to the next item.  Then: (ii) a scan
exception resolves to the current system date; (iii) a truthy scanned value
is the result; (iv)/(v) a falsy scan falls back to the ctx date (a date-like
object is formatted, a string is used as-is); (vi) when no source yields a
truthy value the current system date is used. -/
theorem c7_trade_date_resolution (ctx : Option PyCtx)
    (parseIso : String → Option String) (now : String) :
    (resolveTradeDate [] ctx parseIso now = Val.vNone) ∧
    (∀ (fl : List Val) (e : PyErr), fl ≠ [] → scanDates parseIso fl = .error e →
      resolveTradeDate fl ctx parseIso now = Val.vStr now) ∧
    (∀ (fl : List Val) (v : Val), fl ≠ [] → scanDates parseIso fl = .ok v →
      v.truthy = true → resolveTradeDate fl ctx parseIso now = v) ∧
    (∀ (fl : List Val) (v : Val) (c : PyCtx) (f : String), fl ≠ [] →
      scanDates parseIso fl = .ok v → v.truthy = false →
      ctx = some c → c.date = some (CtxDate.dateLike f) → f ≠ "" →
      resolveTradeDate fl ctx parseIso now = Val.vStr f) ∧
    (∀ (fl : List Val) (v : Val) (c : PyCtx) (s2 : String), fl ≠ [] →
      scanDates parseIso fl = .ok v → v.truthy = false →
      ctx = some c → c.date = some (CtxDate.plainStr s2) → s2 ≠ "" →
      resolveTradeDate fl ctx parseIso now = Val.vStr s2) ∧
    (∀ (fl : List Val) (v : Val), fl ≠ [] → scanDates parseIso fl = .ok v →
      v.truthy = false →
      (ctx = none ∨ ctxTruthy ctx = false ∨
        (∃ c, ctx = some c ∧ (c.date = none ∨ ∃ w, c.date = some (CtxDate.other w)))) →
      resolveTradeDate fl ctx parseIso now = Val.vStr now) ∧
    (∀ (item : Val) (rest : List Val) (fs : PyDict) (md : PyDict) (dv : Val),
      item.getD (vStr "features") (vDict []) = .ok (Val.vDict fs) →
      (Val.vDict fs).getD (vStr "market_data") (vDict []) = .ok (Val.vDict md) →
      dlookup md (vStr "date") = some dv →
      scanDates parseIso (item :: rest) = .ok dv) ∧
    (∀ (item : Val) (rest : List Val) (fs : PyDict) (md : PyDict) (ts ds : String),
      item.getD (vStr "features") (vDict []) = .ok (Val.vDict fs) →
      (Val.vDict fs).getD (vStr "market_data") (vDict []) = .ok (Val.vDict md) →
      dcontains md (vStr "date") = false →
      dlookup md (vStr "timestamp") = some (vStr ts) →
      parseIso ts = some ds →
      scanDates parseIso (item :: rest) = .ok (vStr ds)) ∧
    (∀ (item : Val) (rest : List Val) (fs : PyDict) (md : PyDict),
      item.getD (vStr "features") (vDict []) = .ok (Val.vDict fs) →
      (Val.vDict fs).getD (vStr "market_data") (vDict []) = .ok (Val.vDict md) →
      dcontains md (vStr "date") = false →
      dcontains md (vStr "timestamp") = false →
      scanDates parseIso (item :: rest) = scanDates parseIso rest) := by
  refine ⟨rfl, ?_, ?_, ?_, ?_, ?_, ?_, ?_, ?_⟩
  · intro fl e hne hscan
    have h0 : fl.isEmpty = false := by
      cases fl with
      | nil => exact absurd rfl hne
      | cons a l => rfl
    simp [resolveTradeDate, h0, hscan]
  · intro fl v hne hscan htr
    have h0 : fl.isEmpty = false := by
      cases fl with
      | nil => exact absurd rfl hne
      | cons a l => rfl
    simp [resolveTradeDate, h0, hscan, ctxDateResolve, htr]
  · intro fl v c f hne hscan htr hc hd hf
    have h0 : fl.isEmpty = false := by
      cases fl with
      | nil => exact absurd rfl hne
      | cons a l => rfl
    have hf' : (Val.vStr f).truthy = true := by simp [Val.truthy, hf]
    simp [resolveTradeDate, h0, hscan, ctxDateResolve, htr, hc, hd, ctxTruthy, hf']
  · intro fl v c s2 hne hscan htr hc hd hs2
    have h0 : fl.isEmpty = false := by
      cases fl with
      | nil => exact absurd rfl hne
      | cons a l => rfl
    have hs2' : (Val.vStr s2).truthy = true := by simp [Val.truthy, hs2]
    simp [resolveTradeDate, h0, hscan, ctxDateResolve, htr, hc, hd, ctxTruthy, hs2']
  · intro fl v hne hscan htr hctx
    have h0 : fl.isEmpty = false := by
      cases fl with
      | nil => exact absurd rfl hne
      | cons a l => rfl
    have hres : ctxDateResolve ctx v = v := by
      rcases hctx with rfl | hfalsy | ⟨c, rfl, hdate⟩
      · simp [ctxDateResolve, htr]
      · cases ctx with
        | none => simp [ctxDateResolve, htr]
        | some c => simp [ctxDateResolve, htr, hfalsy]
      · rcases hdate with hnone | ⟨w, hother⟩
        · by_cases hct : ctxTruthy (some c) = true
          · simp [ctxDateResolve, htr, hct, hnone]
          · have hct' : ctxTruthy (some c) = false := by
              revert hct; cases ctxTruthy (some c) <;> simp
            simp [ctxDateResolve, htr, hct']
        · by_cases hct : ctxTruthy (some c) = true
          · simp [ctxDateResolve, htr, hct, hother]
          · have hct' : ctxTruthy (some c) = false := by
              revert hct; cases ctxTruthy (some c) <;> simp
            simp [ctxDateResolve, htr, hct']
    simp [resolveTradeDate, h0, hscan, hres, htr]
  · intro item rest fs md dv hF hM hD
    simp [scanDates, hF, hM, pyContains, dlookup_dcontains hD, pySubscript, hD]
  · intro item rest fs md ts ds hF hM hnd hT hP
    have hct : dcontains md (vStr "timestamp") = true := dlookup_dcontains hT
    simp [scanDates, hF, hM, pyContains, hnd, hct, pySubscript, hT, hP]
  · intro item rest fs md hF hM hnd hnt
    simp [scanDates, hF, hM, pyContains, hnd, hnt]

/-- Witness for C7 (amended): the spec's scenario — features without dates
and a ctx date string resolve to that string; and with no source available
the current date is used. -/
theorem c7_trade_date_resolution_witness :
    resolveTradeDate [itemMSFT] ctxDateOnly parseNone "2026-01-01" =
      Val.vStr "2024-03-15" ∧
    resolveTradeDate [itemMSFT] none parseNone "2026-01-01" =
      Val.vStr "2026-01-01" :=
  ⟨(c7_trade_date_resolution ctxDateOnly parseNone "2026-01-01").2.2.2.2.1
      [itemMSFT] Val.vNone ⟨none, some (.plainStr "2024-03-15"), false⟩
      "2024-03-15" (by simp) (by rfl) (by rfl) (by rfl) (by rfl) (by decide),
   (c7_trade_date_resolution none parseNone "2026-01-01").2.2.2.2.2.1
      [itemMSFT] Val.vNone (by simp) (by rfl) (by rfl) (Or.inl rfl)⟩

/-! ### Claim C8 -/

theorem symStep_pos {sd : PyDict} {t : ℚ} {item : Val} {st' : PyDict × ℚ}
    (h : symStep (sd, t) item = .ok st') :
    ∃ q, itemPosQ item = .ok q ∧ st'.2 = t + q := by
  unfold symStep at h
  obtain ⟨sym, hsym, h⟩ := split_bind_ok h
  obtain ⟨features, hfeat, h⟩ := split_bind_ok h
  obtain ⟨filtered, hfil, h⟩ := split_bind_ok h
  obtain ⟨posState, hps, h⟩ := split_bind_ok h
  obtain ⟨posV, hpv, h⟩ := split_bind_ok h
  obtain ⟨total, htot, h⟩ := split_bind_ok h
  have hst : st' = (dupsert sd sym (Val.vDict [(vStr "features", Val.vDict filtered)]), total) := by
    simpa using h.symm
  refine ⟨total - t, ?_, by rw [hst]; ring⟩
  unfold itemPosQ
  rw [hsym]
  simp only [ok_bind]
  rw [hfeat]
  simp only [ok_bind]
  rw [hfil]
  simp only [ok_bind]
  rw [hps]
  simp only [ok_bind]
  rw [hpv]
  simp only [ok_bind]
  cases posV with
  | vNum q =>
    simp [pyAdd] at htot ⊢
    rw [← htot]; ring
  | vBool b =>
    simp [pyAdd] at htot ⊢
    rw [← htot]; ring
  | vNone => simp [pyAdd] at htot
  | vStr s => simp [pyAdd] at htot
  | vList l => simp [pyAdd] at htot
  | vDict d => simp [pyAdd] at htot

theorem totalPos_sum :
    ∀ (fl : List Val) (sd0 : PyDict) (t0 : ℚ) (st' : PyDict × ℚ),
      fl.foldlM symStep (sd0, t0) = .ok st' →
      ∃ qs, posList fl = .ok qs ∧ st'.2 = t0 + qs.sum := by
  intro fl
  induction fl with
  | nil =>
    intro sd0 t0 st' h
    simp only [List.foldlM_nil, pure_ok] at h
    obtain rfl : st' = (sd0, t0) := by simpa using h.symm
    exact ⟨[], rfl, by simp⟩
  | cons x xs ih =>
    intro sd0 t0 st' h
    rw [List.foldlM_cons] at h
    obtain ⟨st1, h1, h2⟩ := split_bind_ok h
    obtain ⟨sd1, t1⟩ := st1
    obtain ⟨q, hq, hq2⟩ := symStep_pos h1
    obtain ⟨qs, hqs, hsum⟩ := ih sd1 t1 st' h2
    refine ⟨q :: qs, ?_, ?_⟩
    · unfold posList
      rw [hq, hqs]
    · simp at hq2
      rw [hsum, hq2, List.sum_cons]
      ring

/-- C8: the classification request's portfolio snapshot.  With live ctx cash,
`total_assets = cash + aggregate_position` and `available_cash = cash`;
otherwise `total_assets` is the configured `portfolio.total_cash` (default
100000) and `available_cash = total_assets − aggregate_position`.  The
aggregate position is the sum of the per-candidate
`position_state.current_position_value` contributions, defaulting to 0 for a
candidate without a `position_state` section. -/
theorem c8_portfolio_snapshot :
    (∀ (cfg : Option Val) (cash : ℚ) (dt : Option CtxDate) (o : Bool) (tp : ℚ),
      (cfg = none ∨ ∃ c0, cfg = some (Val.vDict c0)) →
      portfolioSnapshot cfg (some ⟨some cash, dt, o⟩) tp =
        .ok (Val.vNum (cash + tp), Val.vNum cash)) ∧
    (∀ (c0 pc : PyDict) (t tp : ℚ) (ctx : Option PyCtx),
      (ctx = none ∨ ctxTruthy ctx = false ∨
        (∃ c, ctx = some c ∧ c.portfolioCash = none)) →
      dlookup c0 (vStr "portfolio") = some (Val.vDict pc) →
      dlookup pc (vStr "total_cash") = some (Val.vNum t) →
      portfolioSnapshot (some (Val.vDict c0)) ctx tp =
        .ok (Val.vNum t, Val.vNum (t - tp))) ∧
    (∀ (ctx : Option PyCtx) (tp : ℚ),
      (ctx = none ∨ ctxTruthy ctx = false ∨
        (∃ c, ctx = some c ∧ c.portfolioCash = none)) →
      portfolioSnapshot none ctx tp =
        .ok (Val.vNum 100000, Val.vNum (100000 - tp))) ∧
    (∀ (fl : List Val) (t : ℚ) (qs : List ℚ),
      (totalPositionAndSymbols fl).map Prod.snd = .ok t → posList fl = .ok qs →
      t = qs.sum) ∧
    (∀ (d fs : PyDict),
      (dlookup d (vStr "features")).getD (vDict []) = Val.vDict fs →
      dlookup (fs.filter (fun p => !(pyEq p.1 (vStr "fundamental_data"))))
        (vStr "position_state") = none →
      itemPosQ (Val.vDict d) = .ok 0) := by
  refine ⟨?_, ?_, ?_, ?_, ?_⟩
  · intro cfg cash dt o tp hcfg
    rcases hcfg with rfl | ⟨c0, rfl⟩
    · simp [portfolioSnapshot, portfolioCfgOf, ctxTruthy]
    · rcases htr : (Val.vDict c0).truthy with _ | _
      · simp [portfolioSnapshot, portfolioCfgOf, htr, ctxTruthy]
      · simp [portfolioSnapshot, portfolioCfgOf, htr, ctxTruthy, Val.getD]
  · intro c0 pc t tp ctx hctx hp1 hp2
    have htr : (Val.vDict c0).truthy = true := by
      cases c0 with
      | nil => simp [dlookup] at hp1
      | cons a l => simp [Val.truthy]
    have hstat : staticPortfolio (Val.vDict pc) tp =
        .ok (Val.vNum t, Val.vNum (t - tp)) := by
      unfold staticPortfolio
      simp [Val.getD, hp2, pySub]
    rcases hctx with rfl | hfalsy | ⟨c, rfl, hnone⟩
    · simp [portfolioSnapshot, portfolioCfgOf, htr, Val.getD, hp1, hstat]
    · cases ctx with
      | none => simp [portfolioSnapshot, portfolioCfgOf, htr, Val.getD, hp1, hstat]
      | some c =>
        simp [portfolioSnapshot, portfolioCfgOf, htr, Val.getD, hp1, hstat, hfalsy]
    · by_cases hct : ctxTruthy (some c) = true
      · simp [portfolioSnapshot, portfolioCfgOf, htr, Val.getD, hp1, hstat, hct, hnone]
      · have hct' : ctxTruthy (some c) = false := by
          revert hct; cases ctxTruthy (some c) <;> simp
        simp [portfolioSnapshot, portfolioCfgOf, htr, Val.getD, hp1, hstat, hct']
  · intro ctx tp hctx
    have hstat : staticPortfolio (Val.vDict []) tp =
        .ok (Val.vNum 100000, Val.vNum (100000 - tp)) := by
      unfold staticPortfolio
      simp [Val.getD, dlookup, pySub]
    rcases hctx with rfl | hfalsy | ⟨c, rfl, hnone⟩
    · simp [portfolioSnapshot, portfolioCfgOf, hstat]
    · cases ctx with
      | none => simp [portfolioSnapshot, portfolioCfgOf, hstat]
      | some c => simp [portfolioSnapshot, portfolioCfgOf, hstat, hfalsy]
    · by_cases hct : ctxTruthy (some c) = true
      · simp [portfolioSnapshot, portfolioCfgOf, hstat, hct, hnone]
      · have hct' : ctxTruthy (some c) = false := by
          revert hct; cases ctxTruthy (some c) <;> simp
        simp [portfolioSnapshot, portfolioCfgOf, hstat, hct']
  · intro fl t qs h1 h2
    obtain ⟨st, hst, ht⟩ : ∃ st, totalPositionAndSymbols fl = .ok st ∧ st.2 = t := by
      cases hr : totalPositionAndSymbols fl with
      | ok st =>
        rw [hr] at h1
        simp [Except.map] at h1
        exact ⟨st, rfl, h1⟩
      | error e => rw [hr] at h1; simp [Except.map] at h1
    obtain ⟨qs', hqs', hsum⟩ := totalPos_sum fl [] 0 st hst
    rw [h2] at hqs'
    obtain rfl : qs = qs' := by simpa using hqs'
    rw [← ht, hsum]
    simp
  · intro d fs hf hnone
    unfold itemPosQ
    simp [itemSymbol, Val.getD, hf, stripFund, hnone, pyAdd,
      (show dlookup ([] : PyDict) (vStr "current_position_value") = none from rfl)]

/-- Witness for C8: the spec's live scenario (cash 50000, positions 20000 →
total 70000, available 50000), the per-item position sum, and the static
default. -/
theorem c8_portfolio_snapshot_witness :
    portfolioSnapshot goodCfg (some ⟨some 50000, none, false⟩) 20000 =
      .ok (Val.vNum (50000 + 20000), Val.vNum 50000) ∧
    portfolioSnapshot none none 20000 =
      .ok (Val.vNum 100000, Val.vNum (100000 - 20000)) ∧
    ((0 : ℚ) + 20000 + 0) = ([(0 : ℚ) + 20000, 0 + 0] : List ℚ).sum :=
  ⟨c8_portfolio_snapshot.1 goodCfg 50000 none false 20000
      (Or.inr ⟨_, rfl⟩),
   c8_portfolio_snapshot.2.2.1 none 20000 (Or.inl rfl),
   c8_portfolio_snapshot.2.2.2.1 [itemAAPL, itemMSFT] (0 + 20000 + 0)
      [0 + 20000, 0 + 0] (by rfl) (by rfl)⟩

/-! ### Claim C9 -/

theorem mem_dupsert {d : PyDict} {k v : Val} {p : Val × Val}
    (h : p ∈ dupsert d k v) : p ∈ d ∨ (pyEq p.1 k = true ∧ p.2 = v) := by
  unfold dupsert at h
  by_cases hc : dcontains d k = true
  · rw [if_pos hc] at h
    obtain ⟨q, hq, hqp⟩ := List.mem_map.mp h
    by_cases hqk : pyEq q.1 k = true
    · right
      rw [← hqp]
      simp [hqk]
    · left
      rw [← hqp]
      simp only [if_neg hqk]
      exact hq
  · rw [if_neg hc] at h
    rcases List.mem_append.mp h with h | h
    · left; exact h
    · right
      simp at h
      rw [h]
      exact ⟨pyEq_refl k, rfl⟩

theorem roundObjPairs_keys :
    ∀ (g : PyDict) (q : Val × Val), q ∈ roundObjPairs g → ∃ q' ∈ g, q.1 = q'.1 := by
  intro g
  induction g with
  | nil => intro q h; simp [roundObjPairs] at h
  | cons x xs ih =>
    intro q h
    obtain ⟨k, v⟩ := x
    simp only [roundObjPairs, List.mem_cons] at h
    rcases h with rfl | h
    · exact ⟨(k, v), by simp⟩
    · obtain ⟨q', hq', hk⟩ := ih q h
      exact ⟨q', by simp [hq'], hk⟩

theorem payload_shape :
    ∀ (fl : List Val) (sd0 : PyDict) (t0 : ℚ) (st' : PyDict × ℚ),
      fl.foldlM symStep (sd0, t0) = .ok st' →
      (∀ p ∈ sd0, ∃ g : PyDict,
        p.2 = Val.vDict [(vStr "features", Val.vDict g)] ∧
        ∀ q ∈ g, pyEq q.1 (vStr "fundamental_data") = false) →
      ∀ p ∈ st'.1, ∃ g : PyDict,
        p.2 = Val.vDict [(vStr "features", Val.vDict g)] ∧
        ∀ q ∈ g, pyEq q.1 (vStr "fundamental_data") = false := by
  intro fl
  induction fl with
  | nil =>
    intro sd0 t0 st' h hinv
    simp only [List.foldlM_nil, pure_ok] at h
    obtain rfl : st' = (sd0, t0) := by simpa using h.symm
    exact hinv
  | cons x xs ih =>
    intro sd0 t0 st' h hinv
    rw [List.foldlM_cons] at h
    obtain ⟨st1, h1, h2⟩ := split_bind_ok h
    have h1' := h1
    unfold symStep at h1'
    obtain ⟨sym, hsym, h1'⟩ := split_bind_ok h1'
    obtain ⟨features, hfeat, h1'⟩ := split_bind_ok h1'
    obtain ⟨filtered, hfil, h1'⟩ := split_bind_ok h1'
    obtain ⟨posState, hps, h1'⟩ := split_bind_ok h1'
    obtain ⟨posV, hpv, h1'⟩ := split_bind_ok h1'
    obtain ⟨total, htot, h1'⟩ := split_bind_ok h1'
    have hst1 : st1 = (dupsert sd0 sym
        (Val.vDict [(vStr "features", Val.vDict filtered)]), total) := by
      simpa using h1'.symm
    have hfilNF : ∀ q ∈ filtered, pyEq q.1 (vStr "fundamental_data") = false := by
      cases features with
      | vDict fs =>
        simp only [stripFund, Except.ok.injEq] at hfil
        intro q hq
        rw [← hfil] at hq
        have := List.of_mem_filter hq
        simpa using this
      | vNone => simp [stripFund] at hfil
      | vBool b => simp [stripFund] at hfil
      | vNum n => simp [stripFund] at hfil
      | vStr s => simp [stripFund] at hfil
      | vList l => simp [stripFund] at hfil
    refine ih _ _ st' h2 ?_
    rw [hst1]
    intro p hp
    exact valsSat_dupsert
      (fun v => ∃ g : PyDict, v = Val.vDict [(vStr "features", Val.vDict g)] ∧
        ∀ q ∈ g, pyEq q.1 (vStr "fundamental_data") = false)
      hinv ⟨filtered, rfl, hfilNF⟩ p hp

/-- C9: for each candidate, the features placed under its symbol in the
classification request equal its input snapshot with the `fundamental_data`
section removed and every other section unchanged (order preserved), and no
`fundamental_data` section key survives in any candidate's features — also
after the numeric rounding applied for serialization. -/
theorem c9_fundamentals_stripped :
    (∀ (fs : PyDict),
      stripFund (Val.vDict fs) =
        .ok (fs.filter (fun p => !(pyEq p.1 (vStr "fundamental_data")))) ∧
      (∀ p : Val × Val,
        p ∈ fs.filter (fun p => !(pyEq p.1 (vStr "fundamental_data"))) ↔
          (p ∈ fs ∧ pyEq p.1 (vStr "fundamental_data") = false)) ∧
      (fs.filter (fun p => !(pyEq p.1 (vStr "fundamental_data")))).Sublist fs) ∧
    (∀ (sd : PyDict) (t : ℚ) (item : Val) (st' : PyDict × ℚ) (fs : PyDict) (sym : Val),
      symStep (sd, t) item = .ok st' →
      item.getD (vStr "features") (vDict []) = .ok (Val.vDict fs) →
      itemSymbol item = .ok sym →
      st'.1 = dupsert sd sym (Val.vDict [(vStr "features",
        Val.vDict (fs.filter (fun p => !(pyEq p.1 (vStr "fundamental_data")))))])) ∧
    (∀ (fl : List Val) (sd : PyDict) (t : ℚ),
      totalPositionAndSymbols fl = .ok (sd, t) →
      ∀ p ∈ sd, ∃ g : PyDict,
        p.2 = Val.vDict [(vStr "features", Val.vDict g)] ∧
        (∀ q ∈ g, pyEq q.1 (vStr "fundamental_data") = false) ∧
        round_numbers_in_obj p.2 =
          Val.vDict [(vStr "features", Val.vDict (roundObjPairs g))] ∧
        (∀ q ∈ roundObjPairs g, pyEq q.1 (vStr "fundamental_data") = false)) := by
  refine ⟨?_, ?_, ?_⟩
  · intro fs
    refine ⟨rfl, ?_, List.filter_sublist fs⟩
    intro p
    constructor
    · intro h
      have hm := List.of_mem_filter h
      exact ⟨List.mem_of_mem_filter h, by simpa using hm⟩
    · intro ⟨h1, h2⟩
      exact List.mem_filter.mpr ⟨h1, by simpa using h2⟩
  · intro sd t item st' fs sym h hfeat hsym
    unfold symStep at h
    rw [hsym] at h
    simp only [ok_bind] at h
    rw [hfeat] at h
    simp only [ok_bind] at h
    simp only [stripFund, ok_bind] at h
    obtain ⟨posState, hps, h⟩ := split_bind_ok h
    obtain ⟨posV, hpv, h⟩ := split_bind_ok h
    obtain ⟨total, htot, h⟩ := split_bind_ok h
    have : st' = (dupsert sd sym (Val.vDict [(vStr "features",
        Val.vDict (fs.filter (fun p => !(pyEq p.1 (vStr "fundamental_data")))))]),
        total) := by
      simpa using h.symm
    rw [this]
  · intro fl sd t h p hp
    obtain ⟨g, hshape, hnf⟩ :=
      payload_shape fl [] 0 (sd, t) h (by simp) p hp
    refine ⟨g, hshape, hnf, by rw [hshape]; rfl, ?_⟩
    intro q hq
    obtain ⟨q', hq', hk⟩ := roundObjPairs_keys g q hq
    rw [hk]
    exact hnf q' hq'

/-- Witness for C9: the AAPL item's payload entry is exactly its snapshot
with the fundamentals section filtered out. -/
theorem c9_fundamentals_stripped_witness :
    ([(vStr "AAPL", Val.vDict [(vStr "features", Val.vDict
        [(vStr "market_data", Val.vDict [(vStr "date", vStr "2024-03-15")]),
         (vStr "position_state", Val.vDict [(vStr "current_position_value", vNum 20000)])])])],
      ((0 : ℚ) + 20000)).1 =
      dupsert [] (vStr "AAPL") (Val.vDict [(vStr "features", Val.vDict
        (([(vStr "market_data", Val.vDict [(vStr "date", vStr "2024-03-15")]),
           (vStr "fundamental_data", Val.vDict [(vStr "pe", vNum 30)]),
           (vStr "position_state", Val.vDict [(vStr "current_position_value", vNum 20000)])] : PyDict).filter
          (fun p => !(pyEq p.1 (vStr "fundamental_data")))))]) :=
  c9_fundamentals_stripped.2.1 [] 0 itemAAPL _ _ _ (by rfl) (by rfl) (by rfl)

/-! ### Machinery for claims C2 and C10 -/

theorem dlookup_eq_none_of_not_contains {d : PyDict} {k : Val}
    (h : dcontains d k = false) : dlookup d k = none := by
  unfold dcontains at h
  unfold dlookup
  induction d with
  | nil => rfl
  | cons p rest ih =>
    simp only [List.any_cons, Bool.or_eq_false_iff] at h
    simp only [List.find?_cons, h.1, ih h.2]

theorem dlookup_append (r0 ext : PyDict) (s : Val) :
    dlookup (r0 ++ ext) s =
      match dlookup r0 s with
      | some v => some v
      | none => dlookup ext s := by
  induction r0 with
  | nil => simp [dlookup]
  | cons p rest ih =>
    rcases hp : pyEq p.1 s with _ | _
    · unfold dlookup at ih ⊢
      simp only [List.cons_append, List.find?_cons, hp, cond_false]
      exact ih
    · unfold dlookup
      simp [List.cons_append, List.find?_cons, hp]

theorem dcontains_append (r0 ext : PyDict) (s : Val) :
    dcontains (r0 ++ ext) s = (dcontains r0 s || dcontains ext s) := by
  simp [dcontains, List.any_append]

theorem listContains_dedup_go (l : List Val) :
    ∀ (acc : List Val) (x : Val),
      listContains (l.foldl (fun acc s =>
        if listContains acc s then acc else acc ++ [s]) acc) x =
      (listContains acc x || listContains l x) := by
  induction l with
  | nil => intro acc x; simp [listContains]
  | cons t rest ih =>
    intro acc x
    simp only [List.foldl_cons]
    by_cases hc : listContains acc t = true
    · rw [if_pos hc, ih]
      simp only [listContains, List.any_cons]
      by_cases htx : pyEq t x = true
      · obtain ⟨y, hy, hyt⟩ := List.any_eq_true.mp hc
        have : listContains acc x = true :=
          List.any_eq_true.mpr ⟨y, hy, pyEq_trans hyt htx⟩
        simp only [listContains] at this
        simp [this, htx]
      · simp [Bool.of_not_eq_true htx]
    · rw [if_neg hc, ih]
      simp only [listContains, List.any_append, List.any_cons]
      simp only [List.any_nil, Bool.or_false]
      rw [Bool.or_assoc]
  
theorem listContains_dedupPy (l : List Val) (x : Val) :
    listContains (dedupPy l) x = listContains l x := by
  unfold dedupPy
  rw [listContains_dedup_go]
  simp [listContains]

theorem dedupPy_pairwise (l : List Val) :
    (dedupPy l).Pairwise (fun a b => pyEq a b = false) := by
  unfold dedupPy
  suffices h : ∀ acc : List Val, acc.Pairwise (fun a b => pyEq a b = false) →
      (l.foldl (fun acc s => if listContains acc s then acc else acc ++ [s])
        acc).Pairwise (fun a b => pyEq a b = false) from h [] (by simp)
  induction l with
  | nil => intro acc hacc; simpa using hacc
  | cons t rest ih =>
    intro acc hacc
    simp only [List.foldl_cons]
    by_cases hc : listContains acc t = true
    · rw [if_pos hc]; exact ih acc hacc
    · rw [if_neg hc]
      refine ih _ (List.pairwise_append.mpr ⟨hacc, by simp, ?_⟩)
      intro a ha b hb
      simp only [List.mem_singleton] at hb
      rw [hb]
      rcases hax : pyEq a t with _ | _
      · rfl
      · exact absurd
          (show listContains acc t = true from List.any_eq_true.mpr ⟨a, ha, hax⟩)
          hc

theorem fillReasoning_ext :
    ∀ (inputSet snf : List Val) (r0 : PyDict),
      ∃ ext : PyDict,
        fillReasoning inputSet snf r0 = r0 ++ ext ∧
        (ext.map Prod.fst).Sublist inputSet ∧
        ∀ p ∈ ext,
          p.2 = vStr (if listContains snf p.1 then needMsg else noNeedMsg) ∧
          dcontains r0 p.1 = false := by
  intro inputSet
  induction inputSet with
  | nil =>
    intro snf r0
    exact ⟨[], by simp [fillReasoning], by simp, by simp⟩
  | cons t rest ih =>
    intro snf r0
    by_cases hc : dcontains r0 t = true
    · obtain ⟨ext, hfill, hsub, hprop⟩ := ih snf r0
      refine ⟨ext, ?_, hsub.cons t, hprop⟩
      unfold fillReasoning at hfill ⊢
      simpa [hc] using hfill
    · obtain ⟨ext, hfill, hsub, hprop⟩ := ih snf
        (r0 ++ [(t, vStr (if listContains snf t then needMsg else noNeedMsg))])
      refine ⟨(t, vStr (if listContains snf t then needMsg else noNeedMsg)) :: ext,
        ?_, hsub.cons₂ t, ?_⟩
      · have hdup : dupsert r0 t
            (vStr (if listContains snf t then needMsg else noNeedMsg)) =
            r0 ++ [(t, vStr (if listContains snf t then needMsg else noNeedMsg))] := by
          unfold dupsert
          rw [if_neg hc]
        unfold fillReasoning at hfill ⊢
        rw [List.foldl_cons, if_neg hc, hdup, hfill, List.append_assoc]
        rfl
      · intro p hp
        rcases List.mem_cons.mp hp with rfl | hp
        · exact ⟨rfl, Bool.of_not_eq_true hc⟩
        · obtain ⟨hval, hcont⟩ := hprop p hp
          refine ⟨hval, ?_⟩
          rw [dcontains_append] at hcont
          exact (Bool.or_eq_false_iff.mp hcont).1

theorem dcontains_fill :
    ∀ (inputSet snf : List Val) (r0 : PyDict) (x : Val),
      (listContains inputSet x = true ∨ dcontains r0 x = true) →
      dcontains (fillReasoning inputSet snf r0) x = true := by
  intro inputSet
  induction inputSet with
  | nil =>
    intro snf r0 x h
    rcases h with h | h
    · simp [listContains] at h
    · simpa [fillReasoning] using h
  | cons t rest ih =>
    intro snf r0 x h
    unfold fillReasoning at ih ⊢
    rw [List.foldl_cons]
    by_cases hc : dcontains r0 t = true
    · rw [if_pos hc]
      rcases h with h | h
      · simp only [listContains, List.any_cons, Bool.or_eq_true] at h
        rcases h with h | h
        · exact ih snf r0 x (Or.inr (by rw [← dcontains_congr h]; exact hc))
        · exact ih snf r0 x (Or.inl h)
      · exact ih snf r0 x (Or.inr h)
    · rw [if_neg hc]
      rcases h with h | h
      · simp only [listContains, List.any_cons, Bool.or_eq_true] at h
        rcases h with h | h
        · refine ih snf _ x (Or.inr ?_)
          rw [← dcontains_congr h]
          exact dcontains_dupsert_self r0 t _
        · exact ih snf _ x (Or.inl h)
      · exact ih snf _ x (Or.inr (dcontains_dupsert_mono _ _ h))

/-! ### Claim C2 -/

/-- C2: for a well-formed response (a truthy dict whose
`stocks_need_fundamental` reads as a list `snf`), the returned required-list
is exactly `snf` filtered to the input symbol set (service order preserved,
hallucinations dropped); every input symbol ends with a reasoning entry —
the synthesized inclusion/exclusion default when the service omitted it; no
entry is fabricated for symbols outside the input set; and the reasoning map
keeps exactly one entry per key (pairwise-distinct keys are preserved). -/
theorem c2_sanitize_well_formed (fl syms : List Val) (cfg : Option Val)
    (ctx : Option PyCtx) (prev dh : Option Val) (dd : PyDict) (snf : List Val)
    (parseIso : String → Option String) (now : String)
    (hp : ∃ p, preparedCall fl cfg ctx prev dh parseIso now = .ok p)
    (hsyms : symbolsList fl = .ok syms)
    (htr : (Val.vDict dd).truthy = true)
    (hsnf : respSNF dd = vList snf) :
    ∃ r, filter_stocks_needing_fundamental fl cfg true ctx prev dh
        (.ok (Val.vDict dd)) parseIso now = .ok r ∧
      r.stocks_need_fundamental = snf.filter (fun s => listContains syms s) ∧
      (∀ s ∈ syms, ∃ v, dlookup r.reasoning s = some v) ∧
      (∀ s ∈ syms, dcontains (respReasoning dd) s = false →
        dlookup r.reasoning s =
          some (vStr (if listContains snf s then needMsg else noNeedMsg))) ∧
      (∀ s : Val, listContains syms s = false →
        dcontains r.reasoning s = dcontains (respReasoning dd) s) ∧
      (PairwiseKeys (respReasoning dd) → PairwiseKeys r.reasoning) := by
  obtain ⟨p, hp⟩ := hp
  have hmain : filter_stocks_needing_fundamental fl cfg true ctx prev dh
      (.ok (Val.vDict dd)) parseIso now = handleResponse fl (.ok (Val.vDict dd)) := by
    unfold filter_stocks_needing_fundamental
    simp [hp]
  refine ⟨⟨snf.filter (fun s => listContains (dedupPy syms) s),
    fillReasoning (dedupPy syms) snf (respReasoning dd)⟩, ?_, ?_, ?_, ?_, ?_, ?_⟩
  · rw [hmain]
    unfold handleResponse
    simp [htr, hsnf, hsyms]
  · exact List.filter_congr (fun s _ => listContains_dedupPy syms s)
  · intro s hs
    exact dcontains_dlookup (dcontains_fill (dedupPy syms) snf (respReasoning dd) s
      (Or.inl (by rw [listContains_dedupPy]; exact listContains_of_mem hs)))
  · intro s hs hnc
    obtain ⟨ext, hfill, hsub, hprop⟩ := fillReasoning_ext (dedupPy syms) snf (respReasoning dd)
    have hcontain : dcontains (fillReasoning (dedupPy syms) snf (respReasoning dd)) s = true :=
      dcontains_fill (dedupPy syms) snf (respReasoning dd) s
        (Or.inl (by rw [listContains_dedupPy]; exact listContains_of_mem hs))
    rw [hfill] at hcontain ⊢
    rw [dlookup_append, dlookup_eq_none_of_not_contains hnc]
    rw [dcontains_append, hnc, Bool.false_or] at hcontain
    obtain ⟨v, hv⟩ := dcontains_dlookup hcontain
    obtain ⟨k, hkmem, hkeq⟩ := dlookup_mem hv
    obtain ⟨hval, _⟩ := hprop (k, v) hkmem
    simp only at hval
    rw [hv, hval]
    rw [listContains_congr (pyEq_symm hkeq)]
  · intro s hns
    obtain ⟨ext, hfill, hsub, hprop⟩ := fillReasoning_ext (dedupPy syms) snf (respReasoning dd)
    have hext : dcontains ext s = false := by
      rcases hcontra : dcontains ext s with _ | _
      · rfl
      · obtain ⟨v, hv⟩ := dcontains_dlookup hcontra
        obtain ⟨k, hkmem, hkeq⟩ := dlookup_mem hv
        have hk : k ∈ dedupPy syms := by
          have hmem : k ∈ ext.map Prod.fst := List.mem_map.mpr ⟨(k, v), hkmem, rfl⟩
          exact List.Sublist.mem hmem hsub
        have : listContains (dedupPy syms) s = true :=
          List.any_eq_true.mpr ⟨k, hk, hkeq⟩
        rw [listContains_dedupPy] at this
        rw [this] at hns
        exact absurd hns (by simp)
    simp only [hfill]
    rw [dcontains_append, hext, Bool.or_false]
  · intro hpw
    obtain ⟨ext, hfill, hsub, hprop⟩ := fillReasoning_ext (dedupPy syms) snf (respReasoning dd)
    simp only [hfill]
    unfold PairwiseKeys at hpw ⊢
    refine List.pairwise_append.mpr ⟨hpw, ?_, ?_⟩
    · have hmap : (ext.map Prod.fst).Pairwise (fun a b => pyEq a b = false) :=
        List.Pairwise.sublist hsub (dedupPy_pairwise syms)
      exact List.pairwise_map.mp hmap
    · intro a ha b hb
      obtain ⟨_, hbc⟩ := hprop b hb
      rcases hab : pyEq a.1 b.1 with _ | _
      · rfl
      · have hcon : dcontains (respReasoning dd) b.1 = true :=
          List.any_eq_true.mpr ⟨a, ha, hab⟩
        rw [hcon] at hbc
        exact absurd hbc (by simp)

/-- Witness for C2: the service requires MSFT plus a hallucinated GOOG; AAPL
is omitted from the reasoning and receives the synthesized default; GOOG is
dropped from the required list. -/
theorem c2_sanitize_well_formed_witness :
    ∃ r, filter_stocks_needing_fundamental [itemAAPL, itemMSFT] goodCfg true none
        none none (.ok (Val.vDict [(vStr "stocks_need_fundamental",
          vList [vStr "GOOG", vStr "MSFT"]),
          (vStr "reasoning", Val.vDict [(vStr "MSFT", vStr "because"),
            (vStr "GOOG", vStr "halluc")])])) parseNone "2026-10-12" = .ok r ∧
      r.stocks_need_fundamental = ([vStr "GOOG", vStr "MSFT"].filter
        (fun s => listContains [vStr "AAPL", vStr "MSFT"] s)) ∧
      (∀ s ∈ [vStr "AAPL", vStr "MSFT"], ∃ v, dlookup r.reasoning s = some v) ∧
      (∀ s ∈ [vStr "AAPL", vStr "MSFT"],
        dcontains (respReasoning [(vStr "stocks_need_fundamental",
          vList [vStr "GOOG", vStr "MSFT"]),
          (vStr "reasoning", Val.vDict [(vStr "MSFT", vStr "because"),
            (vStr "GOOG", vStr "halluc")])]) s = false →
        dlookup r.reasoning s = some (vStr (if listContains
          [vStr "GOOG", vStr "MSFT"] s then needMsg else noNeedMsg))) ∧
      (∀ s : Val, listContains [vStr "AAPL", vStr "MSFT"] s = false →
        dcontains r.reasoning s = dcontains (respReasoning
          [(vStr "stocks_need_fundamental", vList [vStr "GOOG", vStr "MSFT"]),
           (vStr "reasoning", Val.vDict [(vStr "MSFT", vStr "because"),
             (vStr "GOOG", vStr "halluc")])]) s) ∧
      (PairwiseKeys (respReasoning [(vStr "stocks_need_fundamental",
          vList [vStr "GOOG", vStr "MSFT"]),
          (vStr "reasoning", Val.vDict [(vStr "MSFT", vStr "because"),
            (vStr "GOOG", vStr "halluc")])]) → PairwiseKeys r.reasoning) :=
  c2_sanitize_well_formed [itemAAPL, itemMSFT] [vStr "AAPL", vStr "MSFT"]
    goodCfg none none none
    [(vStr "stocks_need_fundamental", vList [vStr "GOOG", vStr "MSFT"]),
     (vStr "reasoning", Val.vDict [(vStr "MSFT", vStr "because"),
       (vStr "GOOG", vStr "halluc")])]
    [vStr "GOOG", vStr "MSFT"] parseNone "2026-10-12"
    ⟨_, rfl⟩ (by rfl) (by rfl) (by rfl)

/-! ### Claim C10 -/

/-- C10: on the well-formed-response path, every reasoning entry supplied by
the service is retained unchanged in the output — the sanitizer only appends
synthesized entries for missing input symbols and never filters the
reasoning map — so entries keyed by symbols outside the input set survive,
and the output reasoning key set can strictly contain the input set. -/
theorem c10_external_reasoning_retained (fl syms : List Val) (cfg : Option Val)
    (ctx : Option PyCtx) (prev dh : Option Val) (dd : PyDict) (snf : List Val)
    (s v : Val) (parseIso : String → Option String) (now : String)
    (hp : ∃ p, preparedCall fl cfg ctx prev dh parseIso now = .ok p)
    (hsyms : symbolsList fl = .ok syms)
    (htr : (Val.vDict dd).truthy = true)
    (hsnf : respSNF dd = vList snf)
    (hv : dlookup (respReasoning dd) s = some v) :
    ∃ r, filter_stocks_needing_fundamental fl cfg true ctx prev dh
        (.ok (Val.vDict dd)) parseIso now = .ok r ∧
      dlookup r.reasoning s = some v := by
  obtain ⟨p, hp⟩ := hp
  have hmain : filter_stocks_needing_fundamental fl cfg true ctx prev dh
      (.ok (Val.vDict dd)) parseIso now = handleResponse fl (.ok (Val.vDict dd)) := by
    unfold filter_stocks_needing_fundamental
    simp [hp]
  obtain ⟨ext, hfill, hsub, hprop⟩ :=
    fillReasoning_ext (dedupPy syms) snf (respReasoning dd)
  refine ⟨⟨snf.filter (fun s => listContains (dedupPy syms) s),
    fillReasoning (dedupPy syms) snf (respReasoning dd)⟩, ?_, ?_⟩
  · rw [hmain]
    unfold handleResponse
    simp [htr, hsnf, hsyms]
  · simp only [hfill]
    rw [dlookup_append, hv]

/-- Witness for C10: a reasoning entry for the non-input symbol `"ZZZT"` is
retained verbatim, so the output reasoning keys strictly contain the input
symbol set. -/
theorem c10_external_reasoning_retained_witness :
    ∃ r, filter_stocks_needing_fundamental [itemAAPL, itemMSFT] goodCfg true none
        none none (.ok (Val.vDict [(vStr "stocks_need_fundamental", vList []),
          (vStr "reasoning", Val.vDict [(vStr "ZZZT", vStr "external note")])]))
        parseNone "2026-10-12" = .ok r ∧
      dlookup r.reasoning (vStr "ZZZT") = some (vStr "external note") :=
  c10_external_reasoning_retained [itemAAPL, itemMSFT] [vStr "AAPL", vStr "MSFT"]
    goodCfg none none none
    [(vStr "stocks_need_fundamental", vList []),
     (vStr "reasoning", Val.vDict [(vStr "ZZZT", vStr "external note")])]
    [] (vStr "ZZZT") (vStr "external note") parseNone "2026-10-12"
    ⟨_, rfl⟩ (by rfl) (by rfl) (by rfl) (by rfl)

/-! ### Claim C6 -/

/-- Counterexample to C6 as stated: with a present, truthy `llm`
configuration but a malformed item (its `features` value is a string),
`features.items()` raises and the `AttributeError` propagates — an error
other than the named configuration error, with no fallback result. -/
theorem c6_counterexample :
    filter_stocks_needing_fundamental [itemBadFeatures] goodCfg true none none
        none (.ok Val.vNone) parseNone "2026-10-12" =
      .error PyErr.attributeError ∧
    PyErr.attributeError ≠ PyErr.valueError configErrorMsg ∧
    (dlookup [(vStr "llm", Val.vDict [(vStr "model", vStr "m")])]
      (vStr "llm")).isSome = true :=
  ⟨rfl, by simp, rfl⟩

theorem chain_ok {ξ A B : Type} {u : Except ξ A} {k : A → Except ξ B}
    {z : A} (h1 : u = .ok z) (h2 : ∃ y, k z = .ok y) :
    ∃ y, (u >>= k) = .ok y := by
  subst h1
  simpa using h2

theorem chain_ok' {ξ A B : Type} {u : Except ξ A} {k : A → Except ξ B}
    (h1 : ∃ z, u = .ok z) (h2 : ∀ z, ∃ y, k z = .ok y) :
    ∃ y, (u >>= k) = .ok y := by
  obtain ⟨z, hz⟩ := h1
  subst hz
  simpa using h2 z

theorem pyFloat_ok {v : Val} (h : numLike v = true) : ∃ q, pyFloat v = .ok q := by
  cases v <;> simp [numLike] at h ⊢ <;> simp [pyFloat]

theorem pyInt_ok {v : Val} (h : numLike v = true) : ∃ z, pyInt v = .ok z := by
  cases v <;> simp [numLike] at h ⊢ <;> simp [pyInt]

theorem pySub_ok {v : Val} (h : numLike v = true) (y : ℚ) :
    ∃ q, pySub v y = .ok q := by
  cases v <;> simp [numLike] at h ⊢ <;> simp [pySub]

theorem pyOrM_ok {a b : Except PyErr Val} (ha : ∃ x, a = .ok x)
    (hb : ∃ y, b = .ok y) : ∃ z, pyOrM a b = .ok z := by
  obtain ⟨x, hx⟩ := ha
  obtain ⟨y, hy⟩ := hb
  unfold pyOrM
  rw [hx]
  simp only [ok_bind]
  by_cases ht : x.truthy = true
  · exact ⟨x, by simp [ht]⟩
  · exact ⟨y, by simp [ht, hy]⟩

theorem subDict_some {d : PyDict} {k : String} {x : PyDict}
    (h : subDict d k = some x) :
    (dlookup d (vStr k)).getD (Val.vDict []) = Val.vDict x := by
  unfold subDict at h
  cases hv : (dlookup d (vStr k)).getD (Val.vDict []) <;> rw [hv] at h <;>
    simp at h
  rw [h]

theorem buildLLMConfigM_ok {l f : PyDict} (hl : wfLLM l = true)
    (hf : wfFilter f = true) :
    ∃ c, buildLLMConfigM (Val.vDict l) (Val.vDict f) = .ok c := by
  unfold wfLLM at hl
  simp only [Bool.and_eq_true] at hl
  obtain ⟨⟨⟨hto, hretry⟩, hcache⟩, hbudget⟩ := hl
  unfold wfFilter at hf
  simp only [Bool.and_eq_true] at hf
  obtain ⟨⟨htemp, hmax⟩, hprompt⟩ := hf
  cases hr : subDict l "retry" with
  | none => rw [hr] at hretry; simp at hretry
  | some r =>
  rw [hr] at hretry
  simp only [Bool.and_eq_true] at hretry
  cases hc : subDict l "cache" with
  | none => rw [hc] at hcache; simp at hcache
  | some cc =>
  rw [hc] at hcache
  replace hcache : wfNumField cc "ttl_hours" 24 = true := hcache
  cases hb : subDict l "budget" with
  | none => rw [hb] at hbudget; simp at hbudget
  | some bb =>
  rw [hb] at hbudget
  simp only [Bool.and_eq_true] at hbudget
  unfold buildLLMConfigM
  refine chain_ok rfl ?_
  refine chain_ok rfl ?_
  refine chain_ok' (pyOrM_ok ⟨_, rfl⟩ (pyOrM_ok ⟨_, rfl⟩
    (pyOrM_ok ⟨_, rfl⟩ ⟨_, rfl⟩))) (fun modelV => ?_)
  refine chain_ok rfl ?_
  refine chain_ok' (pyFloat_ok htemp) (fun tempV => ?_)
  refine chain_ok rfl ?_
  refine chain_ok' (pyInt_ok hmax) (fun maxV => ?_)
  refine chain_ok rfl ?_
  refine chain_ok rfl ?_
  refine chain_ok' (pyFloat_ok hto) (fun toV => ?_)
  refine chain_ok (show (Val.vDict l).getD (vStr "retry") (vDict []) =
    .ok (Val.vDict r) from by simp [Val.getD, subDict_some hr]) ?_
  refine chain_ok rfl ?_
  refine chain_ok' (pyInt_ok hretry.1) (fun mrV => ?_)
  refine chain_ok (show (Val.vDict l).getD (vStr "retry") (vDict []) =
    .ok (Val.vDict r) from by simp [Val.getD, subDict_some hr]) ?_
  refine chain_ok rfl ?_
  refine chain_ok' (pyFloat_ok hretry.2) (fun bfV => ?_)
  refine chain_ok (show (Val.vDict l).getD (vStr "cache") (vDict []) =
    .ok (Val.vDict cc) from by simp [Val.getD, subDict_some hc]) ?_
  refine chain_ok rfl ?_
  refine chain_ok (show (Val.vDict l).getD (vStr "cache") (vDict []) =
    .ok (Val.vDict cc) from by simp [Val.getD, subDict_some hc]) ?_
  refine chain_ok rfl ?_
  refine chain_ok' (pyInt_ok hcache) (fun ttlV => ?_)
  refine chain_ok (show (Val.vDict l).getD (vStr "budget") (vDict []) =
    .ok (Val.vDict bb) from by simp [Val.getD, subDict_some hb]) ?_
  refine chain_ok rfl ?_
  refine chain_ok' (pyInt_ok hbudget.1) (fun bptV => ?_)
  refine chain_ok (show (Val.vDict l).getD (vStr "budget") (vDict []) =
    .ok (Val.vDict bb) from by simp [Val.getD, subDict_some hb]) ?_
  refine chain_ok rfl ?_
  refine chain_ok' (pyInt_ok hbudget.2) (fun bctV => ?_)
  refine chain_ok rfl ?_
  exact ⟨_, rfl⟩

theorem pyAdd_ok {v : Val} (h : numLike v = true) (x : ℚ) :
    ∃ q, pyAdd x v = .ok q := by
  cases v <;> simp [numLike] at h <;> simp [pyAdd]

theorem promptNameOf_ok {v : Val} (h : v.isStr = true) :
    ∃ s, promptNameOf v = .ok s := by
  cases v with
  | vStr s => exact ⟨s, rfl⟩
  | vNone => simp [Val.isStr] at h
  | vBool b => simp [Val.isStr] at h
  | vNum q => simp [Val.isStr] at h
  | vList l => simp [Val.isStr] at h
  | vDict d => simp [Val.isStr] at h

theorem symStep_ok {item : Val} (h : WFItem item = true) (st : PyDict × ℚ) :
    ∃ st', symStep st item = .ok st' := by
  unfold WFItem at h
  cases item with
  | vDict d =>
    replace h : (match (dlookup d (vStr "features")).getD (vDict []) with
      | Val.vDict fs =>
        match (dlookup (fs.filter (fun p => !(pyEq p.1 (vStr "fundamental_data"))))
            (vStr "position_state")).getD (vDict []) with
        | Val.vDict ps =>
          numLike ((dlookup ps (vStr "current_position_value")).getD (vNum 0))
        | _ => false
      | _ => false) = true := h
    cases hfs : (dlookup d (vStr "features")).getD (vDict []) with
    | vDict fs =>
      rw [hfs] at h
      replace h : (match (dlookup (fs.filter
          (fun p => !(pyEq p.1 (vStr "fundamental_data"))))
          (vStr "position_state")).getD (vDict []) with
        | Val.vDict ps =>
          numLike ((dlookup ps (vStr "current_position_value")).getD (vNum 0))
        | _ => false) = true := h
      cases hps : (dlookup (fs.filter (fun p => !(pyEq p.1 (vStr "fundamental_data"))))
          (vStr "position_state")).getD (vDict []) with
      | vDict ps =>
        rw [hps] at h
        replace h : numLike ((dlookup ps (vStr "current_position_value")).getD
          (vNum 0)) = true := h
        unfold symStep
        refine chain_ok rfl ?_
        refine chain_ok (show (Val.vDict d).getD (vStr "features")
          (vDict []) = .ok (Val.vDict fs) from by simp [Val.getD, hfs]) ?_
        refine chain_ok rfl ?_
        refine chain_ok (show (Val.vDict (fs.filter
            (fun p => !(pyEq p.1 (vStr "fundamental_data"))))).getD
            (vStr "position_state") (vDict []) = .ok (Val.vDict ps) from by
          simp [Val.getD, hps]) ?_
        refine chain_ok rfl ?_
        exact chain_ok' (pyAdd_ok h st.2) (fun q => ⟨_, rfl⟩)
      | vNone => rw [hps] at h; simp at h
      | vBool b => rw [hps] at h; simp at h
      | vNum q => rw [hps] at h; simp at h
      | vStr s => rw [hps] at h; simp at h
      | vList l => rw [hps] at h; simp at h
    | vNone => rw [hfs] at h; simp at h
    | vBool b => rw [hfs] at h; simp at h
    | vNum q => rw [hfs] at h; simp at h
    | vStr s => rw [hfs] at h; simp at h
    | vList l => rw [hfs] at h; simp at h
  | vNone => simp at h
  | vBool b => simp at h
  | vNum q => simp at h
  | vStr s => simp at h
  | vList l => simp at h

theorem totalPos_ok_of_WF :
    ∀ (fl : List Val), WFItems fl = true →
      ∀ st : PyDict × ℚ, ∃ st', fl.foldlM symStep st = .ok st' := by
  intro fl
  induction fl with
  | nil => intro _ st; exact ⟨st, rfl⟩
  | cons x xs ih =>
    intro h st
    simp only [WFItems, List.all_cons, Bool.and_eq_true] at h
    obtain ⟨st1, h1⟩ := symStep_ok h.1 st
    obtain ⟨st', h2⟩ := ih (by simpa [WFItems] using h.2) st1
    exact ⟨st', by rw [List.foldlM_cons, h1]; simpa using h2⟩

theorem symbolsList_ok_of_WF :
    ∀ (fl : List Val), WFItems fl = true → ∃ syms, symbolsList fl = .ok syms := by
  intro fl
  induction fl with
  | nil => intro _; exact ⟨[], rfl⟩
  | cons x xs ih =>
    intro h
    simp only [WFItems, List.all_cons, Bool.and_eq_true] at h
    have hx : ∃ s, itemSymbol x = .ok s := by
      cases x with
      | vDict d => exact ⟨_, rfl⟩
      | vNone => simp [WFItem] at h
      | vBool b => simp [WFItem] at h
      | vNum q => simp [WFItem] at h
      | vStr s => simp [WFItem] at h
      | vList l => simp [WFItem] at h
    obtain ⟨s, hs⟩ := hx
    obtain ⟨syms, hsyms⟩ := ih (by simpa [WFItems] using h.2)
    exact ⟨s :: syms, by unfold symbolsList; rw [hs, hsyms]⟩

theorem buildCurrentFeatures_ok :
    ∀ (fl : List Val), WFItems fl = true →
      ∀ cf0 : PyDict, ∃ cf, fl.foldlM (fun cf item => do
        let s ← itemSymbol item
        let f ← item.getD (vStr "features") (vDict [])
        pure (dupsert cf s f)) cf0 = .ok cf := by
  intro fl
  induction fl with
  | nil => intro _ cf0; exact ⟨cf0, rfl⟩
  | cons x xs ih =>
    intro h cf0
    simp only [WFItems, List.all_cons, Bool.and_eq_true] at h
    have hx : ∃ cf1, (do
        let s ← itemSymbol x
        let f ← x.getD (vStr "features") (vDict [])
        pure (dupsert cf0 s f) : Except PyErr PyDict) = .ok cf1 := by
      cases x with
      | vDict d =>
        refine chain_ok rfl ?_
        refine chain_ok rfl ?_
        exact ⟨_, rfl⟩
      | vNone => simp [WFItem] at h
      | vBool b => simp [WFItem] at h
      | vNum q => simp [WFItem] at h
      | vStr s => simp [WFItem] at h
      | vList l => simp [WFItem] at h
    obtain ⟨cf1, h1⟩ := hx
    obtain ⟨cf, h2⟩ := ih (by simpa [WFItems] using h.2) cf1
    exact ⟨cf, by rw [List.foldlM_cons, h1]; simpa using h2⟩

theorem historySource_ok {fl : List Val} (h : WFItems fl = true)
    (prev dh : Option Val) : ∃ v, historySource fl prev dh = .ok v := by
  have hb : ∃ cf, buildCurrentFeatures fl = .ok cf :=
    buildCurrentFeatures_ok fl h []
  obtain ⟨cf, hcf⟩ := hb
  unfold historySource
  cases dh with
  | none => exact chain_ok hcf ⟨_, rfl⟩
  | some dhv =>
    rcases htr : dhv.truthy with _ | _
    · simp only [htr, Bool.false_eq_true, if_false]
      exact chain_ok hcf ⟨_, rfl⟩
    · exact ⟨dhv, by simp [htr]⟩

theorem portfolioSnapshot_ok {c0 pc : PyDict}
    (hpc : subDict c0 "portfolio" = some pc)
    (ht : wfNumField pc "total_cash" 100000 = true)
    (ctx : Option PyCtx) (tp : ℚ) :
    ∃ z, portfolioSnapshot (some (Val.vDict c0)) ctx tp = .ok z := by
  have hstat : ∀ (g : PyDict),
      numLike ((dlookup g (vStr "total_cash")).getD (vNum 100000)) = true →
      ∃ z, staticPortfolio (Val.vDict g) tp = .ok z := by
    intro g hg
    unfold staticPortfolio
    refine chain_ok rfl ?_
    exact chain_ok' (pySub_ok hg tp) (fun q => ⟨_, rfl⟩)
  have hcont : ∀ (g : PyDict),
      numLike ((dlookup g (vStr "total_cash")).getD (vNum 100000)) = true →
      ∃ z, (match ctx with
        | some c =>
          if ctxTruthy (some c) = true then
            match c.portfolioCash with
            | some cash => pure (Val.vNum (cash + tp), Val.vNum cash)
            | none => staticPortfolio (Val.vDict g) tp
          else staticPortfolio (Val.vDict g) tp
        | none => staticPortfolio (Val.vDict g) tp : Except PyErr (Val × Val)) = .ok z := by
    intro g hg
    cases ctx with
    | none => exact hstat g hg
    | some c =>
      by_cases hct : ctxTruthy (some c) = true
      · cases hcc : c.portfolioCash with
        | some cash =>
          exact ⟨(Val.vNum (cash + tp), Val.vNum cash), by simp [hct, hcc]⟩
        | none =>
          obtain ⟨z, hz⟩ := hstat g hg
          exact ⟨z, by simp [hct, hcc, hz]⟩
      · obtain ⟨z, hz⟩ := hstat g hg
        have hct' : ctxTruthy (some c) = false := by
          revert hct; cases ctxTruthy (some c) <;> simp
        exact ⟨z, by simp [hct', hz]⟩
  unfold portfolioSnapshot
  rcases htr : (Val.vDict c0).truthy with _ | _
  · refine chain_ok (show portfolioCfgOf (some (Val.vDict c0)) =
        .ok (Val.vDict []) from by simp [portfolioCfgOf, htr]) ?_
    exact hcont [] (by rfl)
  · refine chain_ok (show portfolioCfgOf (some (Val.vDict c0)) =
        .ok (Val.vDict pc) from by
      simp [portfolioCfgOf, htr, Val.getD, subDict_some hpc]) ?_
    exact hcont pc ht

theorem handleResponse_ok {fl syms : List Val}
    (hsyms : symbolsList fl = .ok syms) (outcome : Except String Val) :
    ∃ r, handleResponse fl outcome = .ok r := by
  unfold handleResponse
  cases outcome with
  | error e => exact ⟨_, by rw [hsyms]; rfl⟩
  | ok data =>
    cases data with
    | vDict dd =>
      rcases htr : (Val.vDict dd).truthy with _ | _
      · exact ⟨⟨syms, reasoningForAll syms (fun _ => invalidFormatMsg)⟩,
          by simp [htr, hsyms]⟩
      · cases hsnf : respSNF dd with
        | vList snf =>
          exact ⟨⟨snf.filter (fun s => listContains (dedupPy syms) s),
            fillReasoning (dedupPy syms) snf (respReasoning dd)⟩,
            by simp [htr, hsnf, hsyms]⟩
        | vNone => exact ⟨⟨syms, reasoningForAll syms (fun _ => invalidListMsg)⟩,
            by simp [htr, hsnf, hsyms]⟩
        | vBool b => exact ⟨⟨syms, reasoningForAll syms (fun _ => invalidListMsg)⟩,
            by simp [htr, hsnf, hsyms]⟩
        | vNum q => exact ⟨⟨syms, reasoningForAll syms (fun _ => invalidListMsg)⟩,
            by simp [htr, hsnf, hsyms]⟩
        | vStr s => exact ⟨⟨syms, reasoningForAll syms (fun _ => invalidListMsg)⟩,
            by simp [htr, hsnf, hsyms]⟩
        | vDict d2 => exact ⟨⟨syms, reasoningForAll syms (fun _ => invalidListMsg)⟩,
            by simp [htr, hsnf, hsyms]⟩
    | vNone => exact ⟨⟨syms, reasoningForAll syms (fun _ => invalidFormatMsg)⟩,
        by simp [hsyms]⟩
    | vBool b => exact ⟨⟨syms, reasoningForAll syms (fun _ => invalidFormatMsg)⟩,
        by simp [hsyms]⟩
    | vNum q => exact ⟨⟨syms, reasoningForAll syms (fun _ => invalidFormatMsg)⟩,
        by simp [hsyms]⟩
    | vStr s => exact ⟨⟨syms, reasoningForAll syms (fun _ => invalidFormatMsg)⟩,
        by simp [hsyms]⟩
    | vList l => exact ⟨⟨syms, reasoningForAll syms (fun _ => invalidFormatMsg)⟩,
        by simp [hsyms]⟩

theorem preparedCall_ok {fl : List Val} {c0 : PyDict}
    (hwf : WFCfg c0 = true)
    (hllm : ((dlookup c0 (vStr "llm")).getD (Val.vDict [])).truthy = true)
    (hitems : WFItems fl = true) (ctx : Option PyCtx) (prev dh : Option Val)
    (parseIso : String → Option String) (now : String) :
    ∃ p, preparedCall fl (some (Val.vDict c0)) ctx prev dh parseIso now = .ok p := by
  have htr : (Val.vDict c0).truthy = true := by
    cases c0 with
    | nil => simp [dlookup, Val.truthy] at hllm
    | cons a l => simp [Val.truthy]
  have hcfgOr : cfgOr (some (Val.vDict c0)) = Val.vDict c0 := by
    simp [cfgOr, htr]
  unfold WFCfg at hwf
  simp only [Bool.and_eq_true] at hwf
  obtain ⟨⟨⟨hagents, hcachesec⟩, hportfolio⟩, hllmsec⟩ := hwf
  cases ha : subDict c0 "agents" with
  | none => rw [ha] at hagents; simp at hagents
  | some a =>
  rw [ha] at hagents
  replace hagents : (match subDict a "dual_agent" with
    | some da =>
      match subDict da "fundamental_filter" with
      | some f => wfFilter f
      | none => false
    | none => false) = true := hagents
  cases hda : subDict a "dual_agent" with
  | none => rw [hda] at hagents; simp at hagents
  | some da =>
  rw [hda] at hagents
  replace hagents : (match subDict da "fundamental_filter" with
    | some f => wfFilter f
    | none => false) = true := hagents
  cases hff : subDict da "fundamental_filter" with
  | none => rw [hff] at hagents; simp at hagents
  | some f2 =>
  rw [hff] at hagents
  replace hagents : wfFilter f2 = true := hagents
  cases hl : subDict c0 "llm" with
  | none => rw [hl] at hllmsec; simp at hllmsec
  | some l =>
  rw [hl] at hllmsec
  replace hllmsec : wfLLM l = true := hllmsec
  cases hpc : subDict c0 "portfolio" with
  | none => rw [hpc] at hportfolio; simp at hportfolio
  | some pc =>
  rw [hpc] at hportfolio
  replace hportfolio : wfNumField pc "total_cash" 100000 = true := hportfolio
  cases hcs : subDict c0 "cache" with
  | none => rw [hcs] at hcachesec; simp at hcachesec
  | some cs =>
  have hprompt : ((dlookup f2 (vStr "prompt")).getD
      (vStr "fundamental_filter_v1.txt")).isStr = true := by
    unfold wfFilter at hagents
    simp only [Bool.and_eq_true] at hagents
    exact hagents.2
  have hltr : (Val.vDict l).truthy = true := by
    rw [← subDict_some hl]; exact hllm
  unfold preparedCall
  rw [hcfgOr]
  refine chain_ok (show (Val.vDict c0).getD (vStr "llm") (vDict []) =
    .ok (Val.vDict l) from by simp [Val.getD, subDict_some hl]) ?_
  simp only [hltr, Bool.not_true, Bool.false_eq_true, if_false]
  refine chain_ok (show (Val.vDict c0).getD (vStr "agents") (vDict []) =
    .ok (Val.vDict a) from by simp [Val.getD, subDict_some ha]) ?_
  refine chain_ok (show (Val.vDict a).getD (vStr "dual_agent") (vDict []) =
    .ok (Val.vDict da) from by simp [Val.getD, subDict_some hda]) ?_
  refine chain_ok (show (Val.vDict da).getD (vStr "fundamental_filter")
    (vDict []) = .ok (Val.vDict f2) from by simp [Val.getD, subDict_some hff]) ?_
  refine chain_ok (show (Val.vDict c0).getD (vStr "cache") (vDict []) =
    .ok (Val.vDict cs) from by simp [Val.getD, subDict_some hcs]) ?_
  refine chain_ok rfl ?_
  refine chain_ok' (buildLLMConfigM_ok hllmsec hagents) (fun llm0 => ?_)
  refine chain_ok (show (Val.vDict c0).getD (vStr "agents") (vDict []) =
    .ok (Val.vDict a) from by simp [Val.getD, subDict_some ha]) ?_
  refine chain_ok (show (Val.vDict a).getD (vStr "dual_agent") (vDict []) =
    .ok (Val.vDict da) from by simp [Val.getD, subDict_some hda]) ?_
  refine chain_ok (show (Val.vDict da).getD (vStr "fundamental_filter")
    (vDict []) = .ok (Val.vDict f2) from by simp [Val.getD, subDict_some hff]) ?_
  refine chain_ok rfl ?_
  refine chain_ok' (promptNameOf_ok hprompt) (fun pn => ?_)
  refine chain_ok' (totalPos_ok_of_WF fl hitems ([], 0)) (fun st => ?_)
  refine chain_ok' (portfolioSnapshot_ok hpc hportfolio ctx st.2)
    (fun ta => ?_)
  refine chain_ok' (historySource_ok hitems prev dh) (fun hist => ?_)
  exact ⟨_, rfl⟩

/-- C6 (amended): when `enable_llm` is true and the `llm` sub-configuration is
missing or empty (cfg is `None`, or its `llm` entry reads falsy), the call
raises the named configuration error (`ValueError` with the
`--llm-profile` message) and never falls back; and for calls whose
configuration and feature items are well-formed (`WFCfg`/`WFItems`: traversed
sections are dicts or absent, converted scalars numeric or absent, the prompt
name a string or absent, items are dicts with dict features and numeric
position values) with a truthy `llm` section, the function returns a result
instead of propagating any error, whatever the service outcome.  (The
configuration error is thus the only propagated error on well-formed inputs —
but not on malformed ones, see the counterexample.) -/
theorem c6_missing_llm_config (fl : List Val) (cfg : Option Val)
    (ctx : Option PyCtx) (prev dh : Option Val) (outcome : Except String Val)
    (parseIso : String → Option String) (now : String) :
    ((cfg = none ∨ ∃ c0, cfg = some (Val.vDict c0) ∧
        ((dlookup c0 (vStr "llm")).getD (Val.vDict [])).truthy = false) →
      filter_stocks_needing_fundamental fl cfg true ctx prev dh outcome parseIso
        now = .error (PyErr.valueError configErrorMsg)) ∧
    (∀ c0 : PyDict, cfg = some (Val.vDict c0) → WFCfg c0 = true →
      WFItems fl = true →
      ((dlookup c0 (vStr "llm")).getD (Val.vDict [])).truthy = true →
      ∃ r, filter_stocks_needing_fundamental fl cfg true ctx prev dh outcome
        parseIso now = .ok r) := by
  constructor
  · intro hcfg
    unfold filter_stocks_needing_fundamental preparedCall
    rcases hcfg with rfl | ⟨c0, rfl, hfalsy⟩
    · simp [cfgOr, Val.getD, dlookup, Val.truthy]
    · rcases htr : (Val.vDict c0).truthy with _ | _
      · have h0 : c0 = [] := by
          cases c0 with
          | nil => rfl
          | cons x xs => simp [Val.truthy] at htr
        subst h0
        simp [cfgOr, Val.getD, dlookup, Val.truthy]
      · simp [cfgOr, htr, Val.getD, hfalsy]
  · intro c0 hc hwf hitems hllm
    subst hc
    obtain ⟨p, hp⟩ := preparedCall_ok hwf hllm hitems ctx prev dh parseIso now
    obtain ⟨syms, hsyms⟩ := symbolsList_ok_of_WF fl hitems
    obtain ⟨r, hr⟩ := handleResponse_ok hsyms outcome
    refine ⟨r, ?_⟩
    unfold filter_stocks_needing_fundamental
    simp [hp, hr]

/-- Witness for C6 (amended): with no configuration at all the named
configuration error is raised; with a concrete well-formed configuration the
same call returns a result. -/
theorem c6_missing_llm_config_witness :
    filter_stocks_needing_fundamental [itemAAPL] none true none none none
      (.ok Val.vNone) parseNone "2026-10-12" =
      .error (PyErr.valueError configErrorMsg) ∧
    ∃ r, filter_stocks_needing_fundamental [itemAAPL] goodCfg true none none
      none (.ok Val.vNone) parseNone "2026-10-12" = .ok r :=
  ⟨(c6_missing_llm_config [itemAAPL] none none none none (.ok Val.vNone)
      parseNone "2026-10-12").1 (Or.inl rfl),
   (c6_missing_llm_config [itemAAPL] goodCfg none none none (.ok Val.vNone)
      parseNone "2026-10-12").2 [(vStr "llm", Val.vDict [(vStr "model", vStr "m")])]
      rfl (by rfl) (by rfl) (by rfl)⟩
